import Mathlib

/-!
Verification of the tournament bracket/progression engine of the scoreboard
application (`app/blueprints/bracket.py`, `app/blueprints/api.py`,
`app/blueprints/admin.py`, `app/blueprints/external_api.py`, `app/routes.py`,
data model in `app/models.py`).

The database is shallowly embedded as a Lean list of `Match` records kept in
insertion order (SQLAlchemy/SQLite assigns autoincrement ids in insertion
order, so list order coincides with ascending id order for rows created by the
generators; the `id` field mirrors the autoincrement counter).  A query with
no `ORDER BY` (`.first()`) returns the first row in table order, which for
these tables is insertion order; queries with `ORDER BY` are embedded as a
stable insertion sort, matching SQLite's stable behaviour on these inputs.
`random.shuffle` is modelled by letting every definition take the already
shuffled list as its argument, so theorems quantify over all shuffle outcomes.
Nullable integer columns are `Option Nat`; Python truthiness of such a column
(`if match.team1_id:`) is `truthy` below, while SQL `IS NOT NULL`
(`isnot(None)`) and Python `is None` are `Option.isSome` / `Option.isNone`.
-/

namespace Scoreboard

/-- Python truthiness of a nullable integer column: `None` and `0` are falsy. -/
def truthy : Option Nat → Bool
  | none => false
  | some n => n != 0

/-- `app/models.py` `class Match`: one row of the `match` table.
`team1_score`/`team2_score` default to 0, flags to false, `match_type`
to `'bracket'` (the column default). -/
structure Match where
  id : Nat
  tournament_id : Nat
  round_number : Nat
  match_number : Nat
  team1_id : Option Nat := none
  team2_id : Option Nat := none
  team1_score : Int := 0
  team2_score : Int := 0
  winner_id : Option Nat := none
  is_current : Bool := false
  is_completed : Bool := false
  next_match_id : Option Nat := none
  match_type : String := "bracket"
  group_name : Option String := none
deriving DecidableEq

/-- The match table of the database, in insertion (autoincrement id) order. -/
abbrev DB := List Match

/-- `Match.query.get(mid)`: look a row up by primary key. -/
def getM (s : DB) (mid : Nat) : Option Match :=
  s.find? (fun m => m.id == mid)

/-- Mutate the row with primary key `mid` in place (SQLAlchemy attribute
assignment on a fetched object, later flushed). -/
def setM (s : DB) (mid : Nat) (f : Match → Match) : DB :=
  s.map (fun m => if m.id == mid then f m else m)

/-- `match.team1_id = w`. -/
def updSlot1 (w : Option Nat) (x : Match) : Match := { x with team1_id := w }

/-- `match.team2_id = w`. -/
def updSlot2 (w : Option Nat) (x : Match) : Match := { x with team2_id := w }

/-- `match.is_current = True`. -/
def updCurrent (x : Match) : Match := { x with is_current := true }

/-- `match.is_completed = True` (dead round-1 slot with no teams). -/
def updCompleted (x : Match) : Match := { x with is_completed := true }

/-- `match.winner_id = w; match.is_completed = True` (bye auto-completion). -/
def updByeWinner (w : Option Nat) (x : Match) : Match :=
  { x with winner_id := w, is_completed := true }

/-- Step 1 of `complete_match`: `match.winner_id = winner_id;
match.is_completed = True; match.is_current = False`. -/
def updComplete (w : Option Nat) (x : Match) : Match :=
  { x with winner_id := w, is_completed := true, is_current := false }

/-- Seed both slots of a semifinal (`advance_to_playoffs`). -/
def updSeed (a b : Nat) (x : Match) : Match :=
  { x with team1_id := some a, team2_id := some b }

/-- `ORDER BY round_number, match_number` (lexicographic, ascending). -/
def rmLe (a b : Match) : Prop :=
  a.round_number < b.round_number ∨
    (a.round_number = b.round_number ∧ a.match_number ≤ b.match_number)

instance rmLe.decRel : DecidableRel rmLe := fun a b => by
  unfold rmLe; exact inferInstance

instance rmLe.isTotal : IsTotal Match rmLe :=
  ⟨by intro a b; unfold rmLe; omega⟩

instance rmLe.isTrans : IsTrans Match rmLe :=
  ⟨by intro a b c; unfold rmLe; omega⟩

theorem rmLe.refl (a : Match) : rmLe a a := by unfold rmLe; omega

/-- `ORDER BY match_number` (ascending). -/
def mnLe (a b : Match) : Prop := a.match_number ≤ b.match_number

instance mnLe.decRel : DecidableRel mnLe := fun a b => by
  unfold mnLe; exact inferInstance

instance mnLe.isTotal : IsTotal Match mnLe :=
  ⟨by intro a b; unfold mnLe; omega⟩

instance mnLe.isTrans : IsTrans Match mnLe :=
  ⟨by intro a b c; unfold mnLe; omega⟩

/-- `math.ceil(math.log2 n)` (exact: the least `R` with `n ≤ 2 ^ R`;
for every feasible competitor count the float computation in the source
agrees with the exact ceiling). -/
def ceilLog2 (n : Nat) : Nat :=
  (((List.range' 0 (n + 1)).find? (fun R => decide (n ≤ 2 ^ R))).getD n)

/-! ## Bracket generators (`app/blueprints/bracket.py`) -/

/-- Number of matches created before round `r` in a size-`B` single
elimination shell: `Σ_{j<r} B / 2^j = B - B / 2^(r-1)` (exact for `B` a power
of two).  Used to mirror the autoincrement ids of the shell rows. -/
def seOffset (B r : Nat) : Nat := B - B / 2 ^ (r - 1)

/-- `create_single_elimination_bracket` (bracket.py lines 12-104), taking the
already shuffled team list.  Phases exactly as in the source: build all match
slots (ids mirror autoincrement order: round 1 first), link each match to the
next round, assign the padded team list to round 1, auto-complete byes
(the bye pass reads only fields it never writes, so reading from the
snapshot list `fr` agrees with the live objects Python iterates), then mark
the first unfinished match with both teams truthy as current. -/
def create_single_elimination_bracket (tid : Nat) (teams : List Nat) : DB :=
  let n := teams.length
  if n < 2 then [] else
  let R := ceilLog2 n
  let B := 2 ^ R
  let byes := B - n
  let shell : DB := (List.range' 1 R).flatMap (fun r =>
    (List.range' 1 (B / 2 ^ r)).map (fun k =>
      { id := seOffset B r + k, tournament_id := tid,
        round_number := r, match_number := k }))
  let linked : DB := shell.map (fun m =>
    if m.round_number < R && (m.match_number - 1) / 2 < B / 2 ^ (m.round_number + 1) then
      { m with next_match_id := some (seOffset B (m.round_number + 1) + (m.match_number - 1) / 2 + 1) }
    else m)
  let padded : List (Option Nat) := teams.map some ++ List.replicate byes none
  let assigned : DB := linked.map (fun m =>
    if m.round_number == 1 then
      { m with team1_id := (padded.get? (2 * (m.match_number - 1))).getD none,
               team2_id := (padded.get? (2 * (m.match_number - 1) + 1)).getD none }
    else m)
  let fr : DB := List.insertionSort mnLe (assigned.filter (fun m => m.round_number == 1))
  let afterByes : DB := fr.foldl (fun st m =>
    if truthy m.team1_id && !(truthy m.team2_id) then
      let st1 := setM st m.id (updByeWinner m.team1_id)
      match m.next_match_id with
      | none => st1
      | some nid =>
        if (getM st1 nid).isSome then
          if m.match_number % 2 == 1 then
            setM st1 nid (updSlot1 m.team1_id)
          else
            setM st1 nid (updSlot2 m.team1_id)
        else st1
    else if truthy m.team2_id && !(truthy m.team1_id) then
      let st1 := setM st m.id (updByeWinner m.team2_id)
      match m.next_match_id with
      | none => st1
      | some nid =>
        if (getM st1 nid).isSome then
          if m.match_number % 2 == 1 then
            setM st1 nid (updSlot1 m.team2_id)
          else
            setM st1 nid (updSlot2 m.team2_id)
        else st1
    else if !(truthy m.team1_id) && !(truthy m.team2_id) then
      setM st m.id updCompleted
    else st) assigned
  match afterByes.find? (fun m => !m.is_completed && truthy m.team1_id && truthy m.team2_id) with
  | none => afterByes
  | some c => setM afterByes c.id updCurrent

/-- Group-stage match builder shared by `create_round_robin` and
`create_round_robin_playoffs` (bracket.py lines 212-231 / 255-274): emit one
match per pairing, bumping `match_num` and rolling over to the next round
when it exceeds `matches_per_round`. -/
def rrBuild (tid mpr : Nat) (gname : String) :
    List (Nat × Nat) → Nat → Nat → Nat → DB
  | [], _, _, _ => []
  | (t1, t2) :: rest, rnd, mn, nid =>
    { id := nid, tournament_id := tid, round_number := rnd, match_number := mn,
      team1_id := some t1, team2_id := some t2,
      match_type := "group", group_name := some gname } ::
    (if mn + 1 > mpr then rrBuild tid mpr gname rest (rnd + 1) 1 (nid + 1)
     else rrBuild tid mpr gname rest rnd (mn + 1) (nid + 1))

/-- `create_round_robin` (bracket.py lines 198-239).  `pairs` is the shuffled
`itertools.combinations(team_ids, 2)` list (theorems constrain it to be a
permutation of all unordered pairs where that matters). -/
def create_round_robin (tid : Nat) (teams : List Nat) (pairs : List (Nat × Nat)) : DB :=
  let n := teams.length
  if n < 3 then [] else
  let gname : String := "Round Robin"
  let db := rrBuild tid (max 1 (n / 2)) gname pairs 1 1 1
  match (List.insertionSort rmLe db).head? with
  | none => db
  | some c => setM db c.id updCurrent

/-- `create_round_robin_playoffs` (bracket.py lines 242-317): group stage as
round robin, then two semifinals at round 100 and a finals at round 101
linked from both semifinals; first group match becomes current. -/
def create_round_robin_playoffs (tid : Nat) (teams : List Nat)
    (pairs : List (Nat × Nat)) : DB :=
  let n := teams.length
  if n < 5 then [] else
  let gname : String := "Group Stage"
  let group := rrBuild tid (max 1 (n / 2)) gname pairs 1 1 1
  let g := group.length
  let semi1 : Match :=
    { id := g + 1, tournament_id := tid, round_number := 100, match_number := 1,
      match_type := "bracket", group_name := some ("Semifinal 1"),
      next_match_id := some (g + 3) }
  let semi2 : Match :=
    { id := g + 2, tournament_id := tid, round_number := 100, match_number := 2,
      match_type := "bracket", group_name := some ("Semifinal 2"),
      next_match_id := some (g + 3) }
  let finals : Match :=
    { id := g + 3, tournament_id := tid, round_number := 101, match_number := 1,
      match_type := "finals", group_name := some ("Finals") }
  let db := group ++ [semi1, semi2, finals]
  match (List.insertionSort rmLe (db.filter (fun m => m.match_type == "group"))).head? with
  | none => db
  | some c => setM db c.id updCurrent

/-- `create_swiss_round` (bracket.py lines 320-365): pair the shuffled list
sequentially; with an odd count the last team gets an auto-completed bye; the
first match of the round becomes current if both its teams are truthy. -/
def create_swiss_round (tid : Nat) (teams : List Nat) (rnum : Nat) : DB :=
  let n := teams.length
  if n < 4 then [] else
  let paired : DB := (List.range (n / 2)).map (fun j =>
    { id := j + 1, tournament_id := tid, round_number := rnum, match_number := j + 1,
      team1_id := teams.get? (2 * j),
      team2_id := if 2 * j + 1 < n then teams.get? (2 * j + 1) else none,
      match_type := "group", group_name := some ("Swiss Round " ++ toString rnum) })
  let db : DB :=
    if n % 2 == 1 then
      paired ++ [{ id := n / 2 + 1, tournament_id := tid, round_number := rnum,
                   match_number := n / 2 + 1,
                   team1_id := teams.getLast?, team2_id := none,
                   match_type := "group",
                   group_name := some ("Swiss Round " ++ toString rnum ++ " (Bye)"),
                   is_completed := true, winner_id := teams.getLast? }]
    else paired
  match (List.insertionSort mnLe (db.filter (fun m => m.round_number == rnum))).head? with
  | none => db
  | some c =>
    if truthy c.team1_id && truthy c.team2_id then
      setM db c.id updCurrent
    else db

/-- Matches per losers-bracket round `rn` in `create_double_elimination_bracket`
(bracket.py lines 138-142). -/
def deLosersCount (B rn : Nat) : Nat :=
  if rn % 2 == 1 then max 1 (B / 2 ^ ((rn + 1) / 2 + 1))
  else max 1 (B / 2 ^ (rn / 2 + 1))

/-- `for i, team_id in enumerate(playing_teams)` of
`create_double_elimination_bracket` (bracket.py lines 172-178): the `i`-th
team fills slot `i % 2 + 1` of first-round match `i // 2` (when it exists). -/
def deFill (first_round : DB) : DB → Nat → List Nat → DB
  | st, _, [] => st
  | st, i, t :: rest =>
    let st' := match first_round.get? (i / 2) with
      | none => st
      | some fm =>
        if i % 2 == 0 then setM st fm.id (updSlot1 (some t))
        else setM st fm.id (updSlot2 (some t))
    deFill first_round st' (i + 1) rest

/-- `for i, team_id in enumerate(bye_teams)` of
`create_double_elimination_bracket` (bracket.py lines 182-187): the `i`-th
bye team goes into `second_round[i]`'s first `None` slot. -/
def deByes (second_round : DB) : DB → Nat → List Nat → DB
  | st, _, [] => st
  | st, i, t :: rest =>
    let st' := match second_round.get? i with
      | none => st
      | some sm =>
        match getM st sm.id with
        | none => st
        | some live =>
          if live.team1_id.isNone then setM st sm.id (updSlot1 (some t))
          else setM st sm.id (updSlot2 (some t))
    deByes second_round st' (i + 1) rest

/-- `create_double_elimination_bracket` (bracket.py lines 107-195), taking the
already shuffled team list.  Winners bracket shell (ids mirror autoincrement:
`Σ_{j=1..R} B/2^j = B - 1` winners matches), then losers-bracket rounds at
`round_number = 100 + rn` with one running `losers_match_num` counter, then a
grand finals at round 200.  The first `byes` shuffled teams are taken as
`bye_teams` (head of the list!), the rest fill winners round 1 in pairs; byes
are then placed into winners round-2 slots; the first winners round-1 match
with both teams truthy becomes current. -/
def create_double_elimination_bracket (tid : Nat) (teams : List Nat) : DB :=
  let n := teams.length
  if n < 3 then [] else
  let R := ceilLog2 n
  let B := 2 ^ R
  let byes := B - n
  let winners : DB := (List.range' 1 R).flatMap (fun r =>
    (List.range' 1 (B / 2 ^ r)).map (fun k =>
      { id := seOffset B r + k, tournament_id := tid,
        round_number := r, match_number := k, match_type := "bracket" }))
  let losersAcc := (List.range' 1 ((R - 1) * 2)).foldl (fun (acc : DB × Nat) rn =>
    (acc.1 ++ (List.range (deLosersCount B rn)).map (fun j =>
      { id := (B - 1) + acc.2 + j, tournament_id := tid,
        round_number := 100 + rn, match_number := acc.2 + j,
        match_type := "losers_bracket" }), acc.2 + deLosersCount B rn)) ([], 1)
  let grand_finals : Match :=
    { id := (B - 1) + losersAcc.2, tournament_id := tid,
      round_number := 200, match_number := 1, match_type := "finals" }
  let all0 : DB := winners ++ losersAcc.1 ++ [grand_finals]
  let first_round := all0.filter (fun m => m.round_number == 1)
  let bye_teams := teams.take byes
  let playing_teams := teams.drop byes
  let filled : DB := deFill first_round all0 0 playing_teams
  let second_round := filled.filter (fun m => m.round_number == 2 && m.match_type == "bracket")
  let byesDone : DB := deByes second_round filled 0 bye_teams
  match (byesDone.filter (fun m => m.round_number == 1)).find? (fun m => truthy m.team1_id && truthy m.team2_id) with
  | none => byesDone
  | some c => setM byesDone c.id updCurrent

/-! ## Match progression engine
(`complete_match` in `app/blueprints/api.py` lines 92-152 and `app/routes.py`
lines 1129-1158 — both call sites run the identical core logic embedded here;
`app/blueprints/external_api.py` lines 298-361 adds validation). -/

/-- The filter of the current-match recompute query in `complete_match`:
same tournament, `is_completed == False`, both slots `IS NOT NULL`. -/
def slotPlayable (tid : Nat) (x : Match) : Bool :=
  x.tournament_id == tid && !x.is_completed && x.team1_id.isSome && x.team2_id.isSome

/-- Step 1 of `complete_match`: `match.winner_id = winner_id;
match.is_completed = True; match.is_current = False`. -/
def completeStep1 (s : DB) (mid : Nat) (w : Option Nat) : DB :=
  setM s mid (updComplete w)

/-- Step 2 of `complete_match`: if the completed match has a successor,
place the winner into the successor's first `NULL` slot (`team1_id` if it
is `None`, else `team2_id`). -/
def completeStep2 (s : DB) (m : Match) (w : Option Nat) : DB :=
  match m.next_match_id with
  | none => s
  | some nid =>
    match getM s nid with
    | none => s
    | some nm =>
      if nm.team1_id.isNone then setM s nid (updSlot1 w)
      else setM s nid (updSlot2 w)

/-- Step 3 of `complete_match`: mark the first not-completed match of the
tournament with both slots non-`NULL` as current (the recompute query has no
`ORDER BY`, so it returns the first row in table = insertion order). -/
def completeStep3 (s : DB) (tid : Nat) : DB :=
  match s.find? (slotPlayable tid) with
  | none => s
  | some c => setM s c.id updCurrent

/-- The core of `complete_match` (api.py lines 94-122 / routes.py lines
1130-1158): the three steps in order, on the row fetched by id.
`none` models the 404 for an unknown match id. -/
def complete_match (s : DB) (mid : Nat) (w : Option Nat) : Option DB :=
  match getM s mid with
  | none => none
  | some m =>
    some (completeStep3 (completeStep2 (completeStep1 s mid w) m w) m.tournament_id)

def errMatchNotFound : String := "Match not found"

def errAlreadyCompleted : String := "Match is already completed"

def errWinnerRequired : String := "winner_id is required"

def errWinnerNotInMatch : String := "winner_id must be one of the teams in this match"

/-- `complete_match` of the token-authenticated external API
(external_api.py lines 298-361): validates (match exists, not already
completed, truthy winner id that is one of the two slots) and only then runs
the same completion pipeline.  Returns the error message (if any) and the
resulting database state (unchanged when rejected — nothing was flushed). -/
def external_complete_match (s : DB) (mid : Nat) (w : Option Nat) :
    Option String × DB :=
  match getM s mid with
  | none => (some errMatchNotFound, s)
  | some m =>
    if m.is_completed then (some errAlreadyCompleted, s)
    else if !(truthy w) then (some errWinnerRequired, s)
    else if !(w == m.team1_id || w == m.team2_id) then (some errWinnerNotInMatch, s)
    else
      match complete_match s mid w with
      | none => (some errMatchNotFound, s)
      | some s' => (none, s')

/-! ## Next-match scheduler (`get_next_match`, api.py lines 178-230) -/

/-- A playable match of tournament `tid`: not completed, not current, both
slots non-`NULL` (the SQL filter of the scheduler). -/
def playableB (tid : Nat) (m : Match) : Bool :=
  m.tournament_id == tid && !m.is_completed && !m.is_current &&
    m.team1_id.isSome && m.team2_id.isSome

/-- The most recently completed match of the tournament:
`ORDER BY id DESC ... first()`, i.e. the completed row with the greatest id. -/
def lastCompleted (s : DB) (tid : Nat) : Option Match :=
  (s.filter (fun m => m.tournament_id == tid && m.is_completed)).foldl
    (fun acc m => match acc with
      | none => some m
      | some a => if a.id < m.id then some m else some a) none

/-- `teams_on_field`: the truthy slot occupants of the last completed match. -/
def teamsOnField (s : DB) (tid : Nat) : List Nat :=
  match lastCompleted s tid with
  | none => []
  | some lc =>
    (match lc.team1_id with
     | some t => if t != 0 then [t] else []
     | none => []) ++
    (match lc.team2_id with
     | some t => if t != 0 then [t] else []
     | none => [])

/-- `priority_sort_key(match) == 0`: one of the match's slots holds a team
from `teams_on_field` (Python `team1_id in teams_on_field`; a `None` slot is
never a member of the set of ints). -/
def hasContinuity (s : DB) (tid : Nat) (m : Match) : Bool :=
  (match m.team1_id with
   | some t => (teamsOnField s tid).contains t
   | none => false) ||
  (match m.team2_id with
   | some t => (teamsOnField s tid).contains t
   | none => false)

/-- The binary priority ordering of `priority_sort_key`: matches whose key is
`true` (continuity, key 0) sort before matches whose key is `false` (key 1);
Python's stable `list.sort`. -/
def prioLe (key : Match → Bool) (a b : Match) : Prop :=
  (if key a then (0 : Nat) else 1) ≤ (if key b then (0 : Nat) else 1)

instance prioLe.decRel (key : Match → Bool) : DecidableRel (prioLe key) :=
  fun a b => by unfold prioLe; exact inferInstance

/-- `get_next_match` (api.py lines 178-230): playable matches ordered by
`(round_number, match_number)`, then stably re-sorted by the binary
continuity priority (0 before 1); the head is returned. -/
def get_next_match (s : DB) (tid : Nat) : Option Match :=
  let playable := List.insertionSort rmLe (s.filter (playableB tid))
  if playable.isEmpty then none
  else (List.insertionSort (prioLe (hasContinuity s tid)) playable).head?

/-! ## Standings calculator
(`calculate_standings` in `app/blueprints/admin.py` lines 174-214 and
`app/routes.py` lines 197-239 — identical logic; embedded once). -/

/-- One standings entry (`team_stats[team_id]` plus the derived fields). -/
structure Standing where
  team_id : Nat
  wins : Nat := 0
  losses : Nat := 0
  points_for : Int := 0
  points_against : Int := 0
  matches_played : Nat := 0
  point_diff : Int := 0
  rank : Nat := 0
deriving DecidableEq

/-- `team_stats` upsert: Python dicts preserve insertion order, so a first
appearance appends a zero entry at the end. -/
def upsertStat (ts : List Standing) (t : Nat) (f : Standing → Standing) :
    List Standing :=
  if ts.any (fun e => e.team_id == t) then
    ts.map (fun e => if e.team_id == t then f e else e)
  else ts ++ [f { team_id := t }]

/-- Accumulate one completed match into `team_stats`
(admin.py lines 180-201). -/
def tallyMatch (ts : List Standing) (m : Match) : List Standing :=
  let ts1 :=
    if truthy m.team1_id then
      upsertStat ts (m.team1_id.getD 0) (fun e =>
        { e with points_for := e.points_for + m.team1_score,
                 points_against := e.points_against + (if truthy m.team2_id then m.team2_score else 0),
                 matches_played := e.matches_played + 1,
                 wins := e.wins + (if m.winner_id == m.team1_id then 1 else 0),
                 losses := e.losses + (if m.winner_id == m.team1_id then 0 else if truthy m.winner_id then 1 else 0) })
    else ts
  if truthy m.team2_id then
    upsertStat ts1 (m.team2_id.getD 0) (fun e =>
      { e with points_for := e.points_for + m.team2_score,
               points_against := e.points_against + m.team1_score,
               matches_played := e.matches_played + 1,
               wins := e.wins + (if m.winner_id == m.team2_id then 1 else 0),
               losses := e.losses + (if m.winner_id == m.team2_id then 0 else if truthy m.winner_id then 1 else 0) })
  else ts1

/-- The sort key of `standings.sort(key=..., reverse=True)`. -/
def stKey (e : Standing) : Nat × Int × Int := (e.wins, e.point_diff, e.points_for)

/-- Descending lexicographic comparison on the sort key: `a` may come before
`b` exactly when `key a ≥ key b` (Python's `reverse=True` stable sort). -/
def stGe (a b : Standing) : Prop :=
  b.wins < a.wins ∨ (b.wins = a.wins ∧
    (b.point_diff < a.point_diff ∨ (b.point_diff = a.point_diff ∧
      b.points_for ≤ a.points_for)))

instance stGe.decRel : DecidableRel stGe := fun a b => by
  unfold stGe; exact inferInstance

instance stGe.isTotal : IsTotal Standing stGe :=
  ⟨by intro a b; unfold stGe; omega⟩

instance stGe.isTrans : IsTrans Standing stGe :=
  ⟨by intro a b c; unfold stGe; omega⟩

/-- `calculate_standings` (admin.py lines 174-214): tally completed matches
in query (insertion) order, derive `point_diff`, stable-sort descending by
`(wins, point_diff, points_for)`, then assign 1-based ranks. -/
def calculate_standings (s : DB) (tid : Nat) : List Standing :=
  let completed := s.filter (fun m => m.tournament_id == tid && m.is_completed)
  let ts := completed.foldl tallyMatch []
  let st := ts.map (fun e => { e with point_diff := e.points_for - e.points_against })
  ((List.insertionSort stGe st).enum).map (fun p => { p.2 with rank := p.1 + 1 })

/-! ## advance_to_playoffs
(`app/blueprints/admin.py` lines 228-256 and `app/routes.py` lines 252-286 —
identical logic; embedded once). -/

/-- The tournament fields the engine touches (`app/models.py` `Tournament`). -/
structure Tournament where
  id : Nat
  format : String
  current_phase : String
deriving DecidableEq

def fmtRoundRobinPlayoffs : String := "round_robin_playoffs"

def phasePlayoffs : String := "playoffs"

/-- `advance_to_playoffs` (admin.py lines 230-256): for a
round-robin-playoffs tournament with at least 4 ranked teams, seed the two
round-100 semifinals 1v4 and 2v3 from the standings, set the phase to
`playoffs`, and mark the first semifinal current.  No other row is touched;
in particular no `is_current` flag is cleared. -/
def advance_to_playoffs (t : Tournament) (s : DB) : Tournament × DB :=
  if t.format != fmtRoundRobinPlayoffs then (t, s)
  else
    let st := calculate_standings s t.id
    if st.length < 4 then (t, s)
    else
      match List.insertionSort mnLe (s.filter (fun m => m.tournament_id == t.id && m.round_number == 100)) with
      | semi0 :: semi1 :: _ =>
        match st.get? 0, st.get? 1, st.get? 2, st.get? 3 with
        | some e0, some e1, some e2, some e3 =>
          let s1 := setM s semi0.id (updSeed e0.team_id e3.team_id)
          let s2 := setM s1 semi1.id (updSeed e1.team_id e2.team_id)
          let s3 := setM s2 semi0.id updCurrent
          ({ t with current_phase := phasePlayoffs }, s3)
        | _, _, _, _ => (t, s)
      | _ => (t, s)

/-! ## Auxiliary definitions used by the theorems -/

/-- `itertools.combinations(l, 2)` in Python's order: all unordered pairs,
first component earlier in the list. -/
def allPairs : List Nat → List (Nat × Nat)
  | [] => []
  | x :: xs => xs.map (fun y => (x, y)) ++ allPairs xs

/-- A finite sequence of `complete_match` calls; a call whose match id does
not exist responds 404 and leaves the database unchanged. -/
def runCompletions (s : DB) (cmds : List (Nat × Option Nat)) : DB :=
  cmds.foldl (fun st c => (complete_match st c.1 c.2).getD st) s

/-- Every call in the sequence targets (when the id exists) a match that is
not yet completed and has both slots populated, in the state the call runs
against. -/
def goodRun (tid : Nat) : DB → List (Nat × Option Nat) → Prop
  | _, [] => True
  | s, c :: cs =>
    (∀ m, getM s c.1 = some m → m.is_completed = false ∧ m.team1_id.isSome = true ∧ m.team2_id.isSome = true) ∧
    goodRun tid ((complete_match s c.1 c.2).getD s) cs

/-- Number of matches flagged current. -/
def countCurrent (s : DB) : Nat := s.countP (fun m => m.is_current)

/-- Engine-consistent current flags: every current match is the first
not-completed match with both slots populated, in table order (the state the
current-match recompute of `complete_match` itself establishes). -/
def currentIsFirstPlayable (tid : Nat) (s : DB) : Prop :=
  ∀ m ∈ s, m.is_current = true → s.find? (slotPlayable tid) = some m

/-- All matches belong to tournament `tid`. -/
def oneTournament (tid : Nat) (s : DB) : Prop :=
  ∀ m ∈ s, m.tournament_id = tid

/-- Primary keys are pairwise distinct. -/
def idsNodup (s : DB) : Prop := (s.map (fun m => m.id)).Nodup

/-- Primary keys are strictly increasing along the table (autoincrement). -/
def idsSorted (s : DB) : Prop := (s.map (fun m => m.id)).Pairwise (· < ·)


/-- Every `next_match_id` link points to a row created strictly later
(autoincrement ids in insertion order make successors later rows: every
generator creates a round's successors after the round itself): the linked id
never occurs at or before the linking row. -/
def forwardLinks (s : DB) : Prop :=
  ∀ u m v, s = u ++ m :: v → ∀ nid, m.next_match_id = some nid →
    (∀ x ∈ u, x.id ≠ nid) ∧ m.id ≠ nid

/-- C2 counterexample state: three playable matches of one tournament, the
middle one (id 2) current — so "at most one match is current" holds. -/
def c2State : DB :=
  [ { id := 1, tournament_id := 1, round_number := 1, match_number := 1,
      team1_id := some 10, team2_id := some 11 },
    { id := 2, tournament_id := 1, round_number := 1, match_number := 2,
      team1_id := some 12, team2_id := some 13, is_current := true },
    { id := 3, tournament_id := 1, round_number := 1, match_number := 3,
      team1_id := some 14, team2_id := some 15 } ]

/-- C4 counterexample state: insertion order disagrees with
`(round_number, match_number)` order — the round-2 match was created first
(possible via manual match editing/addition, which the engine permits). -/
def c4State : DB :=
  [ { id := 1, tournament_id := 1, round_number := 2, match_number := 1,
      team1_id := some 10, team2_id := some 11 },
    { id := 2, tournament_id := 1, round_number := 1, match_number := 1,
      team1_id := some 12, team2_id := some 13 },
    { id := 3, tournament_id := 1, round_number := 1, match_number := 2,
      team1_id := some 14, team2_id := some 15, is_current := true } ]

/-- C2 witness state: two playable matches, the first one current. -/
def c2wM1 : Match :=
  { id := 1, tournament_id := 1, round_number := 1, match_number := 1,
    team1_id := some 10, team2_id := some 11 }

def c2wM2 : Match :=
  { id := 2, tournament_id := 1, round_number := 1, match_number := 2,
    team1_id := some 12, team2_id := some 13 }

def c2wState : DB := [c2wM1, c2wM2]

/-- C7 witness state: a single already-completed match. -/
def c7m : Match :=
  { id := 1, tournament_id := 1, round_number := 1, match_number := 1,
    team1_id := some 5, team2_id := some 6, winner_id := some 5,
    is_completed := true }

def c7State : DB := [c7m]

/-- A completed match with explicit scores and winner (C8 witness data). -/
def c8Match (i a b : Nat) (sa sb : Int) (wn : Nat) : Match :=
  { id := i, tournament_id := 1, round_number := 1, match_number := i,
    team1_id := some a, team2_id := some b, team1_score := sa, team2_score := sb,
    winner_id := some wn, is_completed := true }

/-- C8 witness state: team 20 ends with 2 wins and point_diff +11, team 21
with 2 wins and point_diff −28. -/
def c8State : DB :=
  [ c8Match 1 20 30 10 0 20, c8Match 2 20 31 11 10 20, c8Match 3 21 30 5 4 21,
    c8Match 4 21 31 3 2 21, c8Match 5 21 22 0 30 22 ]

/-- C9 witness state: match 1 (numbers 10) is completed by team 5; match 2
(number 11) has no continuity; match 3 (number 12) reuses team 5. -/
def c9m : Match :=
  { id := 3, tournament_id := 1, round_number := 1, match_number := 12,
    team1_id := some 5, team2_id := some 9 }

def c9State : DB :=
  [ { id := 1, tournament_id := 1, round_number := 1, match_number := 10,
      team1_id := some 5, team2_id := some 6, is_completed := true, winner_id := some 5 },
    { id := 2, tournament_id := 1, round_number := 1, match_number := 11,
      team1_id := some 7, team2_id := some 8 },
    c9m ]

/-- C4 witness data: the state after completing match 3 of `c4State`, and
the row the recompute marks current. -/
def c4Final : DB := (complete_match c4State 3 (some 14)).getD []

def c4w : Match :=
  { id := 1, tournament_id := 1, round_number := 2, match_number := 1,
    team1_id := some 10, team2_id := some 11, is_current := true }

/-- C10 counterexample: a freshly generated round-robin-playoffs tournament
(no completed matches, so its standings are empty) whose first group match is
current. -/
def c10T : Tournament :=
  { id := 1, format := fmtRoundRobinPlayoffs, current_phase := "group" }

def c10State : DB :=
  create_round_robin_playoffs 1 [1, 2, 3, 4, 5] (allPairs [1, 2, 3, 4, 5])

/-- C10 witness state: the same generated tournament with every group match
completed (team1 winning 10:5); the first group match keeps its
`is_current` flag. -/
def c10DoneState : DB :=
  c10State.map (fun m =>
    if m.match_type == "group" then
      { m with is_completed := true, winner_id := m.team1_id,
               team1_score := 10, team2_score := 5 }
    else m)

def c10Semi0 : Match :=
  { id := 11, tournament_id := 1, round_number := 100, match_number := 1,
    match_type := "bracket", group_name := some ("Semifinal 1"),
    next_match_id := some 13 }

def c10Semi1 : Match :=
  { id := 12, tournament_id := 1, round_number := 100, match_number := 2,
    match_type := "bracket", group_name := some ("Semifinal 2"),
    next_match_id := some 13 }

/-- The winners-bracket shell built by `create_double_elimination_bracket`
(bracket.py lines 121-134), named so the seeding theorems can decompose the
generator phase by phase.  Identical to the `winners` local of
`create_double_elimination_bracket`. -/
def deWinners (tid B R : Nat) : DB :=
  (List.range' 1 R).flatMap (fun r =>
    (List.range' 1 (B / 2 ^ r)).map (fun k =>
      { id := seOffset B r + k, tournament_id := tid,
        round_number := r, match_number := k, match_type := "bracket" }))

/-- The losers-bracket rows together with the final `losers_match_num` counter
(bracket.py lines 136-153); identical to the `losersAcc` local of
`create_double_elimination_bracket`. -/
def deLosersAcc (tid B R : Nat) : DB × Nat :=
  (List.range' 1 ((R - 1) * 2)).foldl (fun (acc : DB × Nat) rn =>
    (acc.1 ++ (List.range (deLosersCount B rn)).map (fun j =>
      { id := (B - 1) + acc.2 + j, tournament_id := tid,
        round_number := 100 + rn, match_number := acc.2 + j,
        match_type := "losers_bracket" }), acc.2 + deLosersCount B rn)) ([], 1)

/-- All rows created by `create_double_elimination_bracket` before any team is
assigned (winners shell, losers shell, grand finals — bracket.py lines
121-165); identical to the `all0` local of the generator. -/
def deAll0 (tid : Nat) (teams : List Nat) : DB :=
  deWinners tid (2 ^ ceilLog2 teams.length) (ceilLog2 teams.length) ++
  (deLosersAcc tid (2 ^ ceilLog2 teams.length) (ceilLog2 teams.length)).1 ++
  [{ id := (2 ^ ceilLog2 teams.length - 1) +
      (deLosersAcc tid (2 ^ ceilLog2 teams.length) (ceilLog2 teams.length)).2,
     tournament_id := tid, round_number := 200, match_number := 1,
     match_type := "finals" }]

/-- The state after the `playing_teams` assignment loop of
`create_double_elimination_bracket` (bracket.py lines 167-178); identical to
the `filled` local of the generator. -/
def deFilled (tid : Nat) (teams : List Nat) : DB :=
  deFill ((deAll0 tid teams).filter (fun m => m.round_number == 1))
    (deAll0 tid teams) 0
    (teams.drop (2 ^ ceilLog2 teams.length - teams.length))

/-- The state after the bye-placement loop of
`create_double_elimination_bracket` (bracket.py lines 180-187); identical to
the `byesDone` local of the generator. -/
def deByesDone (tid : Nat) (teams : List Nat) : DB :=
  deByes ((deFilled tid teams).filter
      (fun m => m.round_number == 2 && m.match_type == "bracket"))
    (deFilled tid teams) 0
    (teams.take (2 ^ ceilLog2 teams.length - teams.length))

/-- Row view of the state reached once `deFill`'s enumeration has consumed all
indices below `i`, assuming the round-1 snapshot holds the id `j + 1` at index
`j` (for `j < K`): the row with id `a ∈ [1, K]` receives the team at global
enumeration index `2*(a-1)` into `team1_id` and the one at `2*(a-1)+1` into
`team2_id` whenever that index falls inside `[i, i + ts.length)`. -/
def fillView (K i : Nat) (ts : List Nat) (x : Match) : Match :=
  { x with
    team1_id :=
      if 1 ≤ x.id ∧ x.id ≤ K ∧ i ≤ 2 * (x.id - 1) ∧ 2 * (x.id - 1) < i + ts.length
      then ts.get? (2 * (x.id - 1) - i) else x.team1_id,
    team2_id :=
      if 1 ≤ x.id ∧ x.id ≤ K ∧ i ≤ 2 * (x.id - 1) + 1 ∧ 2 * (x.id - 1) + 1 < i + ts.length
      then ts.get? (2 * (x.id - 1) + 1 - i) else x.team2_id }

/-- Row view of the state reached once `deByes`'s enumeration has consumed all
indices below `i`, assuming the round-2 snapshot holds the id `K + j + 1` at
index `j` (for `j < Q`) and every targeted row still has an empty `team1_id`:
the row with id `K + j + 1` receives bye team `j`. -/
def byeView (K Q i : Nat) (bs : List Nat) (x : Match) : Match :=
  { x with
    team1_id :=
      if K + 1 + i ≤ x.id ∧ x.id ≤ K + Q ∧ x.id < K + 1 + i + bs.length
      then bs.get? (x.id - (K + 1 + i)) else x.team1_id }

/-- `padded_teams = team_ids + [None] * num_byes` of
`create_single_elimination_bracket` (bracket.py line 59). -/
def sePadded (teams : List Nat) : List (Option Nat) :=
  teams.map some ++ List.replicate (2 ^ ceilLog2 teams.length - teams.length) none

/-- One iteration of the assignment/bye loop of
`create_single_elimination_bracket` (bracket.py lines 71-94) on the snapshot
row `m` (the loop reads only fields it never writes, so the snapshot agrees
with the live object): complete single-occupant matches with the occupant as
winner and place the occupant into the successor slot selected by the parity
of `match_number`; complete empty matches outright. -/
def byeStep (st : DB) (m : Match) : DB :=
  if truthy m.team1_id && !(truthy m.team2_id) then
    let st1 := setM st m.id (updByeWinner m.team1_id)
    match m.next_match_id with
    | none => st1
    | some nid =>
      if (getM st1 nid).isSome then
        if m.match_number % 2 == 1 then
          setM st1 nid (updSlot1 m.team1_id)
        else
          setM st1 nid (updSlot2 m.team1_id)
      else st1
  else if truthy m.team2_id && !(truthy m.team1_id) then
    let st1 := setM st m.id (updByeWinner m.team2_id)
    match m.next_match_id with
    | none => st1
    | some nid =>
      if (getM st1 nid).isSome then
        if m.match_number % 2 == 1 then
          setM st1 nid (updSlot1 m.team2_id)
        else
          setM st1 nid (updSlot2 m.team2_id)
      else st1
  else if !(truthy m.team1_id) && !(truthy m.team2_id) then
    setM st m.id updCompleted
  else st

/-- The linked shell of `create_single_elimination_bracket` (bracket.py lines
28-51): the SE shell coincides with the DE winners shell (`match_type`
defaults to `"bracket"`), each non-final-round match then points at its next
round match. -/
def seLinked (tid : Nat) (teams : List Nat) : DB :=
  (deWinners tid (2 ^ ceilLog2 teams.length) (ceilLog2 teams.length)).map
    (fun m =>
      if m.round_number < ceilLog2 teams.length &&
          (m.match_number - 1) / 2 <
            2 ^ ceilLog2 teams.length / 2 ^ (m.round_number + 1) then
        { m with next_match_id := some (seOffset (2 ^ ceilLog2 teams.length)
            (m.round_number + 1) + (m.match_number - 1) / 2 + 1) }
      else m)

/-- State after the seeding assignment of `create_single_elimination_bracket`
(bracket.py lines 61-68): round-1 match `k` receives `padded_teams[2k-2]` and
`padded_teams[2k-1]`. -/
def seAssigned (tid : Nat) (teams : List Nat) : DB :=
  (seLinked tid teams).map (fun m =>
    if m.round_number == 1 then
      { m with
          team1_id := ((sePadded teams).get? (2 * (m.match_number - 1))).getD none,
          team2_id := ((sePadded teams).get? (2 * (m.match_number - 1) + 1)).getD none }
    else m)

/-- `first_round`, sorted by `match_number`
(`create_single_elimination_bracket`, bracket.py lines 55-56). -/
def seFR (tid : Nat) (teams : List Nat) : DB :=
  List.insertionSort mnLe
    ((seAssigned tid teams).filter (fun m => m.round_number == 1))

/-- State after the assignment/bye loop of
`create_single_elimination_bracket` (bracket.py lines 61-94). -/
def seAfterByes (tid : Nat) (teams : List Nat) : DB :=
  (seFR tid teams).foldl byeStep (seAssigned tid teams)

/-- The fully-evaluated round-1 row `k` of `seAssigned`. -/
def seRow1 (tid : Nat) (teams : List Nat) (k : Nat) : Match :=
  { id := seOffset (2 ^ ceilLog2 teams.length) 1 + k, tournament_id := tid,
    round_number := 1, match_number := k,
    team1_id := ((sePadded teams).get? (2 * (k - 1))).getD none,
    team2_id := ((sePadded teams).get? (2 * (k - 1) + 1)).getD none,
    next_match_id :=
      if (decide (1 < ceilLog2 teams.length) &&
          decide ((k - 1) / 2 <
            2 ^ ceilLog2 teams.length / 2 ^ (1 + 1))) = true then
        some (seOffset (2 ^ ceilLog2 teams.length) (1 + 1) + (k - 1) / 2 + 1)
      else none }

/-- Row view of the effect of the bye loop's iterations over match numbers
`[j, j + cnt)`, for `n` competitors, `K` round-1 matches, `w0` the sole
occupant of the bye match (when `n` is odd) and `nxt` that match's successor
link: matches whose pair of padded seeds is empty are completed, the single
half-empty match (number `(n+1)/2`, existing iff `n` is odd) is completed
with `w0` as winner, and `w0` is written to the successor's slot selected by
the parity of `(n+1)/2`. -/
def seProgressSeg (j cnt n K : Nat) (w0 : Option Nat) (nxt : Option Nat)
    (x : Match) : Match :=
  if 1 ≤ x.id ∧ x.id ≤ K ∧ j ≤ x.id ∧ x.id < j + cnt then
    (if n ≤ 2 * (x.id - 1) then updCompleted x
     else if 2 * (x.id - 1) + 1 = n then updByeWinner w0 x
     else x)
  else if nxt = some x.id ∧ n % 2 = 1 ∧ j ≤ (n + 1) / 2 ∧
      (n + 1) / 2 < j + cnt then
    (if (n + 1) / 2 % 2 = 1 then updSlot1 w0 x else updSlot2 w0 x)
  else x

/-- The double-elimination seeding property of a row, relative to the list
`pts` of competitors assigned to winners round 1 in consecutive pairs and the
list `bts` of competitors placed directly into winners round-2 `team1` slots
(out-of-range lookups are `none`, covering unfilled slots and dropped
overflow byes). -/
def seedSpec (pts bts : List Nat) (z : Match) : Prop :=
  (z.round_number = 1 →
    z.team1_id = pts.get? (2 * (z.match_number - 1)) ∧
    z.team2_id = pts.get? (2 * (z.match_number - 1) + 1)) ∧
  (z.round_number = 2 → z.match_type = "bracket" →
    z.team1_id = bts.get? (z.match_number - 1))

/-! ## Helper lemmas -/

theorem getM_setM (s : DB) (mid mid' : Nat) (f : Match → Match)
    (hf : ∀ x, (f x).id = x.id) :
    getM (setM s mid f) mid' =
      (getM s mid').map (fun x => if x.id == mid then f x else x) := by
  unfold getM setM
  rw [List.find?_map]
  have hp : ((fun m : Match => m.id == mid') ∘ fun m : Match => if m.id == mid then f m else m) =
      (fun m : Match => m.id == mid') := by
    funext x
    by_cases h : x.id == mid
    · simp [Function.comp, h, hf]
    · simp [Function.comp, h]
  rw [hp]

theorem getM_id_beq {s : DB} {mid : Nat} {m : Match} (h : getM s mid = some m) :
    (m.id == mid) = true := by
  unfold getM at h
  exact @List.find?_some Match (fun x => x.id == mid) m s h

theorem getM_id_eq {s : DB} {mid : Nat} {m : Match} (h : getM s mid = some m) :
    m.id = mid := by
  have h2 := getM_id_beq h
  simpa using h2

/-- A by-id update that preserves the id and a projection leaves that
projection of every row unchanged. -/
theorem getM_setM_proj {A : Type} (s : DB) (mid mid' : Nat) (f : Match → Match)
    (hf : ∀ x, (f x).id = x.id) (pr : Match → A) (hp : ∀ x, pr (f x) = pr x) :
    (getM (setM s mid f) mid').map pr = (getM s mid').map pr := by
  rw [getM_setM s mid mid' f hf]
  cases getM s mid' with
  | none => rfl
  | some x =>
    simp only [Option.map_some']
    split
    · rw [hp]
    · rfl

theorem getM_mem {s : DB} {mid : Nat} {m : Match} (h : getM s mid = some m) :
    m ∈ s := by
  unfold getM at h
  exact List.mem_of_find?_eq_some h

theorem getM_completeStep1 (s : DB) (mid : Nat) (w : Option Nat) (mid' : Nat) :
    getM (completeStep1 s mid w) mid' =
      (getM s mid').map (fun x => if x.id == mid
        then { x with winner_id := w, is_completed := true, is_current := false } else x) :=
  getM_setM s mid mid' _ (fun _ => rfl)

/-- Step 2 only writes successor team slots: winner and completion flags of
every row are unchanged. -/
theorem completeStep2_proj (s : DB) (m : Match) (w : Option Nat) (mid' : Nat) :
    (getM (completeStep2 s m w) mid').map (fun x => (x.winner_id, x.is_completed)) =
      (getM s mid').map (fun x => (x.winner_id, x.is_completed)) := by
  unfold completeStep2
  split
  · rfl
  · split
    · rfl
    · split <;> (apply getM_setM_proj <;> exact fun x => rfl)

/-- Step 3 only sets an `is_current` flag: winner and completion flags of
every row are unchanged. -/
theorem completeStep3_proj (s : DB) (tid : Nat) (mid' : Nat) :
    (getM (completeStep3 s tid) mid').map (fun x => (x.winner_id, x.is_completed)) =
      (getM s mid').map (fun x => (x.winner_id, x.is_completed)) := by
  unfold completeStep3
  split
  · rfl
  · apply getM_setM_proj <;> exact fun x => rfl

/-! ## Claims -/

/-- C1 (code_bug evidence): with exactly 4 competitors,
`create_round_robin_playoffs` returns at the `num_teams < 5` guard and
creates zero matches, for every pairing order — contradicting the claimed
6 + 2 + 1 = 9 matches, which the repository's own test
`test_round_robin_playoffs_four_teams` asserts. -/
theorem C1_rrp_with_four_competitors_creates_no_matches :
    ∀ pairs : List (Nat × Nat),
      create_round_robin_playoffs 1 [1, 2, 3, 4] pairs = [] := by
  intro pairs
  rfl

/-- C6: each generator silently no-ops (creates no matches, raises no error)
below its minimum competitor count: 2 for single elimination, 3 for double
elimination and round robin, 4 for Swiss, 5 for round-robin-playoffs. -/
theorem C6_generators_noop_below_minimum :
    ∀ (tid : Nat) (teams : List Nat) (pairs : List (Nat × Nat)) (rnum : Nat),
      (teams.length < 2 → create_single_elimination_bracket tid teams = []) ∧
      (teams.length < 3 → create_double_elimination_bracket tid teams = []) ∧
      (teams.length < 3 → create_round_robin tid teams pairs = []) ∧
      (teams.length < 4 → create_swiss_round tid teams rnum = []) ∧
      (teams.length < 5 → create_round_robin_playoffs tid teams pairs = []) := by
  intro tid teams pairs rnum
  refine ⟨fun h => ?_, fun h => ?_, fun h => ?_, fun h => ?_, fun h => ?_⟩
  · unfold create_single_elimination_bracket
    simp [h]
  · unfold create_double_elimination_bracket
    simp [h]
  · unfold create_round_robin
    simp [h]
  · unfold create_swiss_round
    simp [h]
  · unfold create_round_robin_playoffs
    simp [h]

/-- C6 witness: a one-element competitor list is below every minimum. -/
theorem C6_generators_noop_below_minimum_witness :
    create_single_elimination_bracket 1 [9] = [] ∧
    create_double_elimination_bracket 1 [9] = [] ∧
    create_round_robin 1 [9] [] = [] ∧
    create_swiss_round 1 [9] 1 = [] ∧
    create_round_robin_playoffs 1 [9] [] = [] := by
  have h := C6_generators_noop_below_minimum 1 [9] [] 1
  exact ⟨h.1 (by decide), h.2.1 (by decide), h.2.2.1 (by decide),
    h.2.2.2.1 (by decide), h.2.2.2.2 (by decide)⟩

/-- C2 counterexample: `c2State` has exactly one current match (id 2), yet a
single `complete_match` call on match 3 leaves two matches current — the
recompute marks the first populated incomplete match (id 1) current without
clearing the stale flag on id 2. -/
theorem C2_counterexample :
    countCurrent c2State = 1 ∧
    countCurrent (runCompletions c2State [(3, some 14)]) = 2 := by
  decide

/-- C3 counterexample: in the single-elimination bracket for 7 competitors,
the round-1 bye match (id 4, `match_number` 4, sole occupant 7) is completed
with winner 7, but the winner is written into slot 2 of its successor (id 6)
although the successor's slot 1 is empty — the code places by parity of
`match_number`, not into the first open slot. -/
theorem C3_counterexample :
    ((getM (create_single_elimination_bracket 1 [1, 2, 3, 4, 5, 6, 7]) 4).map
      (fun m => (m.team1_id, m.team2_id, m.is_completed, m.winner_id, m.next_match_id)) =
      some (some 7, none, true, some 7, some 6)) ∧
    ((getM (create_single_elimination_bracket 1 [1, 2, 3, 4, 5, 6, 7]) 6).map
      (fun m => (m.team1_id, m.team2_id)) = some (none, some 7)) := by
  decide

/-- C4 counterexample: completing match 3 of `c4State` marks the round-2
match (id 1) current — the recompute query has no `ORDER BY`, so it takes the
first row in insertion order — although the round-1 match (id 2) is the
`(round_number, match_number)`-minimal incomplete match with both slots
populated and stays non-current. -/
theorem C4_counterexample :
    ((complete_match c4State 3 (some 14)).bind (fun s => getM s 1)).map
      (fun m => (m.round_number, m.is_current)) = some (2, true) ∧
    ((complete_match c4State 3 (some 14)).bind (fun s => getM s 2)).map
      (fun m => (m.round_number, m.match_number, m.is_completed,
        m.team1_id.isSome, m.team2_id.isSome, m.is_current)) =
      some (1, 1, false, true, true, false) := by
  decide

/-- C5 counterexample: for 5 competitors (3 byes), the generator takes the
byes from the HEAD of the shuffled list: round-1 match 1 is filled with the
tail teams 4 and 5, while teams 1 and 2 (the head) go straight into the
round-2 slots — the opposite of the claimed "first `n - byes` fill round 1,
remaining tail get byes" (which would put teams 1 and 2 into round-1
match 1). -/
theorem C5_counterexample :
    ((getM (create_double_elimination_bracket 1 [1, 2, 3, 4, 5]) 1).map
      (fun m => (m.round_number, m.team1_id, m.team2_id)) = some (1, some 4, some 5)) ∧
    ((getM (create_double_elimination_bracket 1 [1, 2, 3, 4, 5]) 5).map
      (fun m => (m.round_number, m.match_type, m.team1_id)) =
      some (2, "bracket", some 1)) := by
  decide

/-- C10 counterexample: on a freshly generated round-robin-playoffs
tournament (group match current, no completed matches, hence empty
standings), `advance_to_playoffs` returns at its standings-size guard, so the
tournament ends with one current match, not the claimed two. -/
theorem C10_counterexample :
    c10State.countP (fun m => m.is_current && m.match_type == "group") = 1 ∧
    countCurrent c10State = 1 ∧
    countCurrent (advance_to_playoffs c10T c10State).2 = 1 := by
  decide

/-- C7: calling complete on an already-completed match is rejected with an
error and an unchanged database on the external-API path, while the internal
path accepts the call and silently overwrites `winner_id` (re-running the
completion pipeline). -/
theorem C7_recompletion_rejected_externally_overwritten_internally :
    ∀ (s : DB) (mid : Nat) (w : Option Nat) (m : Match),
      getM s mid = some m → m.is_completed = true →
      external_complete_match s mid w = (some errAlreadyCompleted, s) ∧
      (complete_match s mid w).isSome = true ∧
      ((complete_match s mid w).bind (fun s' => getM s' mid)).map
        (fun m' => (m'.winner_id, m'.is_completed)) = some (w, true) := by
  intro s mid w m hm hc
  refine ⟨?_, ?_, ?_⟩
  · unfold external_complete_match
    rw [hm]
    simp [hc]
  · unfold complete_match
    rw [hm]
    rfl
  · unfold complete_match
    rw [hm]
    rw [Option.some_bind]
    rw [completeStep3_proj, completeStep2_proj, getM_completeStep1, hm]
    have hid : m.id = mid := getM_id_eq hm
    simp [hid]

/-- C7 witness: the concrete completed match `c7m`. -/
theorem C7_recompletion_witness :
    external_complete_match c7State 1 (some 6) = (some errAlreadyCompleted, c7State) ∧
    (complete_match c7State 1 (some 6)).isSome = true ∧
    ((complete_match c7State 1 (some 6)).bind (fun s' => getM s' 1)).map
      (fun m' => (m'.winner_id, m'.is_completed)) = some (some 6, true) :=
  C7_recompletion_rejected_externally_overwritten_internally c7State 1 (some 6) c7m
    (by decide) (by decide)

/-- C8: the standings list is sorted descending by the lexicographic key
`(wins, point_diff, points_for)`, each entry's rank is its 1-based position,
and any entry with 2 wins and positive point_diff precedes any entry with
2 wins and negative point_diff. -/
theorem C8_standings_sorted_and_ranked :
    ∀ (s : DB) (tid : Nat),
      List.Sorted stGe (calculate_standings s tid) ∧
      (∀ i : Fin (calculate_standings s tid).length,
        ((calculate_standings s tid).get i).rank = i.1 + 1) ∧
      (∀ i j : Fin (calculate_standings s tid).length,
        ((calculate_standings s tid).get i).wins = 2 →
        ((calculate_standings s tid).get j).wins = 2 →
        0 < ((calculate_standings s tid).get i).point_diff →
        ((calculate_standings s tid).get j).point_diff < 0 →
        i.1 < j.1) := by
  intro s tid
  set sorted := List.insertionSort stGe
    (((s.filter (fun m => m.tournament_id == tid && m.is_completed)).foldl tallyMatch []).map
      (fun e => { e with point_diff := e.points_for - e.points_against })) with hsorted_def
  have hunfold : calculate_standings s tid =
      (sorted.enum).map (fun p => { p.2 with rank := p.1 + 1 }) := rfl
  have hs0 : List.Sorted stGe sorted := List.sorted_insertionSort stGe _
  have hlen : (calculate_standings s tid).length = sorted.length := by
    rw [hunfold]
    simp
  have hget : ∀ (i : Nat) (hi : i < (calculate_standings s tid).length),
      (calculate_standings s tid).get ⟨i, hi⟩ =
        { sorted.get ⟨i, hlen ▸ hi⟩ with rank := i + 1 } := by
    intro i hi
    simp only [hunfold, List.get_eq_getElem, List.getElem_map, List.getElem_enum]
  have hsortedFinal : List.Sorted stGe (calculate_standings s tid) := by
    refine List.pairwise_iff_get.mpr ?_
    intro i j hij
    obtain ⟨iv, hiv⟩ := i
    obtain ⟨jv, hjv⟩ := j
    have h1 := List.pairwise_iff_get.mp hs0 ⟨iv, hlen ▸ hiv⟩ ⟨jv, hlen ▸ hjv⟩ hij
    rw [hget iv hiv, hget jv hjv]
    exact h1
  refine ⟨hsortedFinal, ?_, ?_⟩
  · intro i
    obtain ⟨iv, hiv⟩ := i
    rw [hget iv hiv]
  · intro i j hwi hwj hpi hpj
    rcases Nat.lt_trichotomy i.1 j.1 with h | h | h
    · exact h
    · exfalso
      have hij : i = j := Fin.ext h
      subst hij
      omega
    · exfalso
      have h2 := List.pairwise_iff_get.mp hsortedFinal j i h
      unfold stGe at h2
      omega

/-- C8 witness: on `c8State` the standings are sorted, the top entry has
rank 1, and the 2-win positive-diff entry (index 0) precedes the 2-win
negative-diff entry (index 1). -/
theorem C8_standings_witness :
    List.Sorted stGe (calculate_standings c8State 1) ∧
    ((calculate_standings c8State 1).get ⟨0, by decide⟩).rank = 1 ∧
    (0 : Nat) < 1 := by
  have h := C8_standings_sorted_and_ranked c8State 1
  refine ⟨h.1, h.2.1 ⟨0, by decide⟩, ?_⟩
  exact h.2.2 ⟨0, by decide⟩ ⟨1, by decide⟩ (by decide) (by decide) (by decide) (by decide)

theorem orderedInsert_skip {r : Match → Match → Prop} [DecidableRel r] (x : Match) :
    ∀ (A B : List Match), (∀ a ∈ A, ¬ r x a) →
      List.orderedInsert r x (A ++ B) = A ++ List.orderedInsert r x B := by
  intro A
  induction A with
  | nil => intro B _; rfl
  | cons a A ih =>
    intro B h
    have hna : ¬ r x a := h a (by simp)
    show List.orderedInsert r x (a :: (A ++ B)) = a :: (A ++ List.orderedInsert r x B)
    simp only [List.orderedInsert]
    rw [if_neg hna, ih B (fun b hb => h b (by simp [hb]))]

/-- A stable sort by a binary priority key is exactly: the key-`true` block
followed by the key-`false` block, each in the original order. -/
theorem insertionSort_prioLe_eq (key : Match → Bool) (l : List Match) :
    List.insertionSort (prioLe key) l =
      l.filter key ++ l.filter (fun a => !key a) := by
  induction l with
  | nil => rfl
  | cons x xs ih =>
    show List.orderedInsert (prioLe key) x (List.insertionSort (prioLe key) xs) = _
    rw [ih]
    by_cases hx : key x = true
    · have hfront : List.orderedInsert (prioLe key) x
          (xs.filter key ++ xs.filter (fun a => !key a)) =
          x :: (xs.filter key ++ xs.filter (fun a => !key a)) := by
        cases hC : (xs.filter key ++ xs.filter (fun a => !key a)) with
        | nil => rfl
        | cons c rest =>
          simp only [List.orderedInsert]
          rw [if_pos]
          unfold prioLe
          rw [if_pos hx]
          exact Nat.zero_le _
      rw [hfront]
      simp [List.filter_cons, hx]
    · have hx' : key x = false := by revert hx; cases key x <;> simp
      have hskip : ∀ a ∈ xs.filter key, ¬ prioLe key x a := by
        intro a ha
        have hka : key a = true := (List.mem_filter.mp ha).2
        unfold prioLe
        rw [if_neg (by simp [hx']), if_pos hka]
        omega
      rw [orderedInsert_skip x _ _ hskip]
      have htail : List.orderedInsert (prioLe key) x (xs.filter (fun a => !key a)) =
          x :: xs.filter (fun a => !key a) := by
        cases hC : xs.filter (fun a => !key a) with
        | nil => rfl
        | cons c rest =>
          have hc : c ∈ xs.filter (fun a => !key a) := by
            rw [hC]; exact List.mem_cons_self c rest
          have hkc : key c = false := by
            have := (List.mem_filter.mp hc).2
            revert this; cases key c <;> simp
          simp only [List.orderedInsert]
          rw [if_pos]
          unfold prioLe
          rw [if_neg (by simp [hx']), if_neg (by simp [hkc])]
      rw [htail]
      simp [List.filter_cons, hx']

/-- The head of a list sorted by a reflexive relation is related to every
element. -/
theorem sorted_head?_min {r : Match → Match → Prop} (hr : ∀ a, r a a)
    {l : List Match} (hs : List.Sorted r l) {a : Match} (ha : l.head? = some a) :
    ∀ y ∈ l, r a y := by
  cases l with
  | nil => cases ha
  | cons x xs =>
    have hxa : x = a := by
      simpa using ha
    subst hxa
    intro y hy
    rcases List.mem_cons.mp hy with h | h
    · subst h; exact hr _
    · exact List.rel_of_sorted_cons hs y h

theorem head?_mem {l : List Match} {a : Match} (h : l.head? = some a) : a ∈ l := by
  cases l with
  | nil => cases h
  | cons x xs =>
    have hx : x = a := by simpa using h
    rw [← hx]
    exact List.mem_cons_self x xs

/-- C9: `get_next_match` returns `none` exactly when no match is playable;
otherwise the returned match is playable, has continuity whenever any
playable match does, and is `(round_number, match_number)`-minimal among the
playable matches of its priority bucket. -/
theorem C9_pick_next_match :
    ∀ (s : DB) (tid : Nat),
      (get_next_match s tid = none ↔ ∀ m ∈ s, playableB tid m = false) ∧
      (∀ m, get_next_match s tid = some m →
        m ∈ s ∧ playableB tid m = true ∧
        ((∃ x ∈ s, playableB tid x = true ∧ hasContinuity s tid x = true) →
          hasContinuity s tid m = true) ∧
        (∀ x ∈ s, playableB tid x = true →
          hasContinuity s tid x = hasContinuity s tid m → rmLe m x)) := by
  intro s tid
  set pl := s.filter (playableB tid) with hpl
  set spl := List.insertionSort rmLe pl with hspl
  have hunfold : get_next_match s tid =
      if spl.isEmpty then none
      else (List.insertionSort (prioLe (hasContinuity s tid)) spl).head? := rfl
  have hs : List.Sorted rmLe spl := List.sorted_insertionSort rmLe pl
  have hmemspl : ∀ x : Match, x ∈ spl ↔ x ∈ pl :=
    fun x => (List.perm_insertionSort rmLe pl).mem_iff
  have hdecomp := insertionSort_prioLe_eq (hasContinuity s tid) spl
  set A := spl.filter (hasContinuity s tid) with hA
  set B := spl.filter (fun a => !hasContinuity s tid a) with hB
  have hlenspl : spl.length = pl.length := List.length_insertionSort rmLe pl
  have hiff : get_next_match s tid = none ↔ pl = [] := by
    constructor
    · intro h
      by_contra hne
      have hE : spl.isEmpty = false := by
        cases hEc : spl.isEmpty
        · rfl
        · exact absurd (by
            have h0 : spl = [] := List.isEmpty_iff.mp hEc
            have : pl.length = 0 := by rw [← hlenspl, h0]; rfl
            exact List.eq_nil_of_length_eq_zero this) hne
      rw [hunfold, if_neg (by simp [hE])] at h
      have h0 := List.head?_eq_none_iff.mp h
      have hlen0 : spl.length = 0 := by
        rw [← List.length_insertionSort (prioLe (hasContinuity s tid)) spl, h0]
        rfl
      rw [hlenspl] at hlen0
      exact hne (List.eq_nil_of_length_eq_zero hlen0)
    · intro h
      have h0 : spl = [] := by rw [hspl, h]; rfl
      rw [hunfold, h0]
      rfl
  constructor
  · rw [hiff, hpl]
    rw [List.filter_eq_nil_iff]
    constructor
    · intro h m hm
      have := h m hm
      revert this
      cases playableB tid m <;> simp
    · intro h m hm
      rw [h m hm]
      simp
  · intro m hm
    have hE : spl.isEmpty = false := by
      cases hEc : spl.isEmpty
      · rfl
      · rw [hunfold, if_pos (by simp [hEc])] at hm
        cases hm
    rw [hunfold, if_neg (by simp [hE]), hdecomp] at hm
    have hmmem : m ∈ A ++ B := head?_mem hm
    have hmspl : m ∈ spl := by
      rcases List.mem_append.mp hmmem with h | h
      · exact (List.mem_filter.mp h).1
      · exact (List.mem_filter.mp h).1
    have hmpl : m ∈ pl := (hmemspl m).mp hmspl
    have hmS := List.mem_filter.mp hmpl
    refine ⟨hmS.1, hmS.2, ?_, ?_⟩
    · rintro ⟨x, hxs, hxp, hxc⟩
      have hxspl : x ∈ spl := (hmemspl x).mpr (List.mem_filter.mpr ⟨hxs, hxp⟩)
      have hxA : x ∈ A := List.mem_filter.mpr ⟨hxspl, hxc⟩
      cases hAcase : A with
      | nil => rw [hAcase] at hxA; cases hxA
      | cons a A' =>
        rw [hAcase] at hm
        have hma : a = m := by simpa using hm
        have haA : a ∈ A := by rw [hAcase]; exact List.mem_cons_self a A'
        have hka := (List.mem_filter.mp haA).2
        rw [hma] at hka
        exact hka
    · intro x hxs hxp hxeq
      have hxspl : x ∈ spl := (hmemspl x).mpr (List.mem_filter.mpr ⟨hxs, hxp⟩)
      by_cases hkm : hasContinuity s tid m = true
      · have hxA : x ∈ A := List.mem_filter.mpr ⟨hxspl, by rw [hxeq, hkm]⟩
        have hsA : List.Sorted rmLe A := List.Pairwise.sublist (List.filter_sublist spl) hs
        cases hAcase : A with
        | nil => rw [hAcase] at hxA; cases hxA
        | cons a A' =>
          rw [hAcase] at hm
          have hma : a = m := by simpa using hm
          have hheadA : A.head? = some m := by rw [hAcase, hma]; rfl
          exact sorted_head?_min rmLe.refl hsA hheadA x hxA
      · have hkm' : hasContinuity s tid m = false := by
          revert hkm; cases hasContinuity s tid m <;> simp
        have hAnil : A = [] := by
          cases hAcase : A with
          | nil => rfl
          | cons a A' =>
            rw [hAcase] at hm
            have hma : a = m := by simpa using hm
            have haA : a ∈ A := by rw [hAcase]; exact List.mem_cons_self a A'
            have hka := (List.mem_filter.mp haA).2
            rw [hma, hkm'] at hka
            cases hka
        rw [hAnil] at hm
        have hheadB : B.head? = some m := by simpa using hm
        have hxB : x ∈ B := List.mem_filter.mpr ⟨hxspl, by rw [hxeq, hkm']; rfl⟩
        have hsB : List.Sorted rmLe B := List.Pairwise.sublist (List.filter_sublist spl) hs
        exact sorted_head?_min rmLe.refl hsB hheadB x hxB

/-- C9 witness: on `c9State` the scheduler returns the continuity match
`c9m` (match_number 12, containing team 5 from the just-completed match)
although a continuity-free playable match with a lower match_number exists. -/
theorem C9_pick_next_match_witness :
    get_next_match c9State 1 = some c9m ∧ c9m ∈ c9State ∧
    playableB 1 c9m = true ∧ hasContinuity c9State 1 c9m = true := by
  have h := (C9_pick_next_match c9State 1).2 c9m (by decide)
  exact ⟨by decide, h.1, h.2.1, h.2.2.1 (by decide)⟩

theorem getM_self_of_nodup {s : DB} (hn : idsNodup s) {m : Match} (hm : m ∈ s) :
    getM s m.id = some m := by
  unfold idsNodup at hn
  unfold getM
  induction s with
  | nil => cases hm
  | cons a l ih =>
    rw [List.map_cons, List.nodup_cons] at hn
    rcases List.mem_cons.mp hm with h | h
    · subst h
      rw [List.find?_cons]
      simp
    · have hma : (a.id == m.id) = false := by
        have hmem : m.id ∈ l.map (fun x => x.id) := List.mem_map.mpr ⟨m, h, rfl⟩
        have hne : a.id ≠ m.id := fun he => hn.1 (he ▸ hmem)
        simpa using hne
      rw [List.find?_cons, hma]
      exact ih hn.2 h

theorem eq_of_mem_of_id_eq {s : DB} (hn : idsNodup s) {m m' : Match}
    (hm : m ∈ s) (hm' : m' ∈ s) (h : m.id = m'.id) : m = m' := by
  have h1 := getM_self_of_nodup hn hm
  have h2 := getM_self_of_nodup hn hm'
  rw [h, h2] at h1
  exact (Option.some.inj h1).symm

theorem countP_setM (p : Match → Bool) (s : DB) (mid : Nat) (f : Match → Match) :
    List.countP p (setM s mid f) =
      List.countP (fun x => if x.id == mid then p (f x) else p x) s := by
  unfold setM
  rw [List.countP_map]
  apply List.countP_congr
  intro x _
  by_cases hx : (x.id == mid) = true
  · simp [Function.comp, hx]
  · simp [Function.comp, hx]

theorem nodup_split_ne {u v : DB} {a : Match} (hn : idsNodup (u ++ a :: v)) :
    (∀ x ∈ u, x.id ≠ a.id) ∧ (∀ x ∈ v, x.id ≠ a.id) := by
  unfold idsNodup at hn
  rw [List.map_append, List.map_cons, List.nodup_append] at hn
  obtain ⟨h1, h2, h3⟩ := hn
  constructor
  · intro x hx he
    exact h3 (List.mem_map.mpr ⟨x, hx, rfl⟩) (he ▸ List.mem_cons_self _ _)
  · intro x hx he
    rw [List.nodup_cons] at h2
    exact h2.1 (he ▸ List.mem_map.mpr ⟨x, hx, rfl⟩)

/-- C10 (amended): when `advance_to_playoffs` actually advances (round-robin
-playoffs format, at least 4 ranked teams, two round-100 semifinals), it
modifies only the two semifinals (their team slots, plus the first
semifinal's `is_current`) and the tournament phase; it never clears any
other match's `is_current` flag; and if exactly one match was current and it
was a group-stage match (round below 100), two matches are current
afterwards. -/
theorem C10_advance_to_playoffs_frame :
    ∀ (t : Tournament) (s : DB) (semi0 semi1 : Match) (rest : List Match),
      t.format = fmtRoundRobinPlayoffs →
      4 ≤ (calculate_standings s t.id).length →
      List.insertionSort mnLe (s.filter (fun m => m.tournament_id == t.id && m.round_number == 100)) = semi0 :: semi1 :: rest →
      idsNodup s →
      (advance_to_playoffs t s).1.current_phase = phasePlayoffs ∧
      (∀ m ∈ s, m.id ≠ semi0.id → m.id ≠ semi1.id →
        getM (advance_to_playoffs t s).2 m.id = getM s m.id) ∧
      (∀ m ∈ s, m.is_current = true →
        (getM (advance_to_playoffs t s).2 m.id).map (fun x => x.is_current) = some true) ∧
      (countCurrent s = 1 →
        (∀ m ∈ s, m.is_current = true → m.round_number < 100) →
        countCurrent (advance_to_playoffs t s).2 = 2) := by
  intro t s semi0 semi1 rest hfmt hstd hsem hnodup
  obtain ⟨e0, he0⟩ : ∃ e, (calculate_standings s t.id).get? 0 = some e :=
    ⟨_, List.get?_eq_get (by omega)⟩
  obtain ⟨e1, he1⟩ : ∃ e, (calculate_standings s t.id).get? 1 = some e :=
    ⟨_, List.get?_eq_get (by omega)⟩
  obtain ⟨e2, he2⟩ : ∃ e, (calculate_standings s t.id).get? 2 = some e :=
    ⟨_, List.get?_eq_get (by omega)⟩
  obtain ⟨e3, he3⟩ : ∃ e, (calculate_standings s t.id).get? 3 = some e :=
    ⟨_, List.get?_eq_get (by omega)⟩
  have hadv : advance_to_playoffs t s =
      ({ t with current_phase := phasePlayoffs },
        setM (setM (setM s semi0.id (updSeed e0.team_id e3.team_id))
          semi1.id (updSeed e1.team_id e2.team_id)) semi0.id updCurrent) := by
    unfold advance_to_playoffs
    rw [hfmt]
    rw [if_neg (by simp)]
    rw [if_neg (by omega)]
    rw [hsem, he0, he1, he2, he3]
  -- the semifinals really are round-100 rows of the table
  have hpermsem : List.Perm (semi0 :: semi1 :: rest)
      (s.filter (fun m => m.tournament_id == t.id && m.round_number == 100)) := by
    rw [← hsem]
    exact List.perm_insertionSort mnLe _
  have hsemi0fil : semi0 ∈ s.filter (fun m => m.tournament_id == t.id && m.round_number == 100) :=
    hpermsem.mem_iff.mp (List.mem_cons_self _ _)
  have hsemi1fil : semi1 ∈ s.filter (fun m => m.tournament_id == t.id && m.round_number == 100) :=
    hpermsem.mem_iff.mp (List.mem_cons_of_mem _ (List.mem_cons_self _ _))
  have hsemi0s : semi0 ∈ s := (List.mem_filter.mp hsemi0fil).1
  have hsemi1s : semi1 ∈ s := (List.mem_filter.mp hsemi1fil).1
  have hsemi0r : semi0.round_number = 100 := by
    have := (List.mem_filter.mp hsemi0fil).2
    simp only [Bool.and_eq_true, beq_iff_eq] at this
    exact this.2
  have hne01 : semi0.id ≠ semi1.id := by
    have hfilnodup : idsNodup (s.filter (fun m => m.tournament_id == t.id && m.round_number == 100)) :=
      List.Nodup.sublist (List.Sublist.map _ (List.filter_sublist s)) hnodup
    have hsortnodup : idsNodup (semi0 :: semi1 :: rest) :=
      (List.Perm.nodup_iff (List.Perm.map _ hpermsem)).mpr hfilnodup
    unfold idsNodup at hsortnodup
    rw [List.map_cons, List.map_cons, List.nodup_cons] at hsortnodup
    intro he
    exact hsortnodup.1 (he ▸ List.mem_cons_self _ _)
  have hframe : ∀ m ∈ s, m.id ≠ semi0.id → m.id ≠ semi1.id →
      getM (advance_to_playoffs t s).2 m.id = getM s m.id := by
    intro m hm h0 h1
    rw [hadv]
    rw [getM_setM _ _ _ updCurrent (fun _ => rfl)]
    rw [getM_setM _ _ _ (updSeed e1.team_id e2.team_id) (fun _ => rfl)]
    rw [getM_setM _ _ _ (updSeed e0.team_id e3.team_id) (fun _ => rfl)]
    cases hg : getM s m.id with
    | none => rfl
    | some y =>
      have hy : y.id = m.id := getM_id_eq hg
      have hp0 : ¬ (y.id = semi0.id) := by rw [hy]; exact h0
      have hp1 : ¬ (y.id = semi1.id) := by rw [hy]; exact h1
      simp [updSeed, updCurrent, hp0, hp1]
  refine ⟨by rw [hadv], hframe, ?_, ?_⟩
  · intro m hm hcur
    by_cases h0 : m.id = semi0.id
    · have hmeq : m = semi0 := eq_of_mem_of_id_eq hnodup hm hsemi0s h0
      rw [hadv]
      rw [getM_setM _ _ _ updCurrent (fun _ => rfl)]
      rw [getM_setM _ _ _ (updSeed e1.team_id e2.team_id) (fun _ => rfl)]
      rw [getM_setM _ _ _ (updSeed e0.team_id e3.team_id) (fun _ => rfl)]
      rw [h0, getM_self_of_nodup hnodup hsemi0s]
      simp [updSeed, updCurrent, hne01]
    · by_cases h1 : m.id = semi1.id
      · have hmeq : m = semi1 := eq_of_mem_of_id_eq hnodup hm hsemi1s h1
        rw [hadv]
        rw [getM_setM _ _ _ updCurrent (fun _ => rfl)]
        rw [getM_setM _ _ _ (updSeed e1.team_id e2.team_id) (fun _ => rfl)]
        rw [getM_setM _ _ _ (updSeed e0.team_id e3.team_id) (fun _ => rfl)]
        rw [h1, getM_self_of_nodup hnodup hsemi1s]
        have hne10 : ¬ (semi1.id = semi0.id) := fun he => hne01 he.symm
        rw [← hmeq] at hne10 ⊢
        simp [updSeed, updCurrent, hne10, hcur]
      · rw [hframe m hm h0 h1, getM_self_of_nodup hnodup hm]
        simp [hcur]
  · intro hone hgrp
    have hs0cur : semi0.is_current = false := by
      cases hc : semi0.is_current
      · rfl
      · have := hgrp semi0 hsemi0s hc
        omega
    have hfinal : List.countP (fun x => if x.id == semi0.id then true else x.is_current) s = 2 := by
      obtain ⟨u, v, huv⟩ := List.append_of_mem hsemi0s
      subst huv
      obtain ⟨hu, hv⟩ := nodup_split_ne hnodup
      unfold countCurrent at hone
      rw [List.countP_append, List.countP_cons] at hone ⊢
      have hcu : List.countP (fun x => if x.id == semi0.id then true else x.is_current) u =
          List.countP (fun x => x.is_current) u := by
        apply List.countP_congr
        intro x hx
        have : (x.id == semi0.id) = false := by
          simp only [beq_eq_false_iff_ne, ne_eq]
          exact hu x hx
        rw [this]
        simp
      have hvv : List.countP (fun x => if x.id == semi0.id then true else x.is_current) v =
          List.countP (fun x => x.is_current) v := by
        apply List.countP_congr
        intro x hx
        have : (x.id == semi0.id) = false := by
          simp only [beq_eq_false_iff_ne, ne_eq]
          exact hv x hx
        rw [this]
        simp
      rw [hcu, hvv]
      rw [hs0cur] at hone
      simp only [Bool.false_eq_true, if_false] at hone
      simp only [beq_self_eq_true, if_true]
      omega
    rw [hadv]
    unfold countCurrent
    rw [countP_setM, countP_setM, countP_setM]
    rw [← hfinal]
    apply List.countP_congr
    intro x _
    by_cases hx0 : (x.id == semi0.id) = true
    · simp [hx0, updSeed, updCurrent]
    · by_cases hx1 : (x.id == semi1.id) = true
      · have hx0' : (x.id == semi0.id) = false := by
          revert hx0; cases x.id == semi0.id <;> simp
        simp [hx0', hx1, updSeed, updCurrent]
      · have hx0' : (x.id == semi0.id) = false := by
          revert hx0; cases x.id == semi0.id <;> simp
        have hx1' : (x.id == semi1.id) = false := by
          revert hx1; cases x.id == semi1.id <;> simp
        simp [hx0', hx1', updSeed, updCurrent]

/-- C10 witness: on the fully played-out group stage, advancing sets the
phase and leaves two matches current (the stale group match plus the first
semifinal). -/
theorem C10_advance_to_playoffs_witness :
    (advance_to_playoffs c10T c10DoneState).1.current_phase = phasePlayoffs ∧
    countCurrent (advance_to_playoffs c10T c10DoneState).2 = 2 := by
  have h := C10_advance_to_playoffs_frame c10T c10DoneState c10Semi0 c10Semi1 []
    (by decide) (by decide) (by decide) (by unfold idsNodup; decide)
  exact ⟨h.1, h.2.2.2 (by decide) (by decide)⟩

/-- A by-id update whose function preserves a predicate commutes with
`find?` for that predicate, mapping the found value. -/
theorem find?_setM_pred (s : DB) (mid : Nat) (f : Match → Match)
    (p : Match → Bool) (hp : ∀ x, p (f x) = p x) :
    List.find? p (setM s mid f) =
      (List.find? p s).map (fun x => if x.id == mid then f x else x) := by
  unfold setM
  rw [List.find?_map]
  have hpe : (p ∘ fun m : Match => if m.id == mid then f m else m) = p := by
    funext x
    by_cases h : (x.id == mid) = true
    · simp [Function.comp, h, hp]
    · simp [Function.comp, h]
  rw [hpe]

theorem ids_setM (s : DB) (mid : Nat) (f : Match → Match)
    (hf : ∀ x, (f x).id = x.id) :
    (setM s mid f).map (fun m => m.id) = s.map (fun m => m.id) := by
  unfold setM
  rw [List.map_map]
  apply List.map_congr_left
  intro x _
  by_cases h : (x.id == mid) = true
  · simp [Function.comp, h, hf]
  · simp [Function.comp, h]

theorem ids_completeStep1 (s : DB) (mid : Nat) (w : Option Nat) :
    (completeStep1 s mid w).map (fun m => m.id) = s.map (fun m => m.id) :=
  ids_setM s mid _ (fun _ => rfl)

theorem ids_completeStep2 (s : DB) (m : Match) (w : Option Nat) :
    (completeStep2 s m w).map (fun m => m.id) = s.map (fun m => m.id) := by
  unfold completeStep2
  split
  · rfl
  · split
    · rfl
    · split <;> (apply ids_setM <;> exact fun x => rfl)

/-- In a table with strictly increasing primary keys, the first row matched
by a filter has the least id among all matching rows. -/
theorem find?_min_of_idsSorted {p : Match → Bool} :
    ∀ {l : DB}, idsSorted l → ∀ {a : Match}, l.find? p = some a →
      ∀ b ∈ l, p b = true → a.id ≤ b.id := by
  intro l
  induction l with
  | nil => intro _ a h; cases h
  | cons x xs ih =>
    intro hs a h b hb hpb
    unfold idsSorted at hs
    rw [List.map_cons, List.pairwise_cons] at hs
    rw [List.find?_cons] at h
    cases hpx : p x with
    | true =>
      rw [hpx] at h
      have hax : x = a := by simpa using h
      subst hax
      rcases List.mem_cons.mp hb with hbx | hbxs
      · subst hbx; exact Nat.le_refl _
      · have := hs.1 b.id (List.mem_map.mpr ⟨b, hbxs, rfl⟩)
        omega
    | false =>
      rw [hpx] at h
      rcases List.mem_cons.mp hb with hbx | hbxs
      · subst hbx
        rw [hpx] at hpb
        cases hpb
      · exact ih (by unfold idsSorted; exact hs.2) h b hbxs hpb

/-- C4 (amended): the recompute step of `complete_match` marks current the
first—in insertion (primary-key) order, not `(round_number, match_number)`
order—row of the tournament that is not completed and has both slots
populated: the row it selects is current in the result and has the least id
among all such rows. -/
theorem C4_new_current_first_in_insertion_order :
    ∀ (s : DB) (mid : Nat) (w : Option Nat) (s' : DB) (tid : Nat) (c : Match),
      idsSorted s →
      oneTournament tid s →
      complete_match s mid w = some s' →
      s'.find? (slotPlayable tid) = some c →
      c.is_current = true ∧ c ∈ s' ∧
      (∀ x ∈ s', slotPlayable tid x = true → c.id ≤ x.id) := by
  intro s mid w s' tid c hsort htid hcomp hfind
  unfold complete_match at hcomp
  cases hm : getM s mid with
  | none => rw [hm] at hcomp; cases hcomp
  | some m =>
    rw [hm] at hcomp
    have hs' : s' = completeStep3 (completeStep2 (completeStep1 s mid w) m w) m.tournament_id :=
      (Option.some.inj hcomp).symm
    have htidm : m.tournament_id = tid := htid m (getM_mem hm)
    set s2 := completeStep2 (completeStep1 s mid w) m w with hs2
    have hids2 : s2.map (fun m => m.id) = s.map (fun m => m.id) := by
      rw [hs2, ids_completeStep2, ids_completeStep1]
    have hsort2 : idsSorted s2 := by
      unfold idsSorted
      rw [hids2]
      exact hsort
    rw [htidm] at hs'
    unfold completeStep3 at hs'
    cases hc0 : s2.find? (slotPlayable tid) with
    | none =>
      rw [hc0] at hs'
      have hs'' : s' = s2 := by rw [hs']
      rw [hs'', hc0] at hfind
      cases hfind
    | some c0 =>
      rw [hc0] at hs'
      have hs'' : s' = setM s2 c0.id updCurrent := by rw [hs']
      have hfind' : s'.find? (slotPlayable tid) =
          some (if c0.id == c0.id then updCurrent c0 else c0) := by
        rw [hs'', find?_setM_pred s2 c0.id updCurrent (slotPlayable tid) (fun x => rfl), hc0]
        rfl
      have hcval : c = updCurrent c0 := by
        rw [hfind'] at hfind
        have := Option.some.inj hfind
        simpa using this.symm
      refine ⟨by rw [hcval]; rfl, List.mem_of_find?_eq_some hfind, ?_⟩
      intro x hx hpx
      have hcid : c.id = c0.id := by rw [hcval]; rfl
      rw [hs''] at hx
      unfold setM at hx
      obtain ⟨y, hy, hxy⟩ := List.mem_map.mp hx
      have hyid : x.id = y.id := by
        rw [← hxy]
        by_cases h : (y.id == c0.id) = true <;> simp [h, updCurrent]
      have hpy : slotPlayable tid y = true := by
        rw [← hxy] at hpx
        by_cases h : (y.id == c0.id) = true
        · rw [if_pos h] at hpx
          simpa [slotPlayable, updCurrent] using hpx
        · rw [if_neg (by simpa using h)] at hpx
          exact hpx
      rw [hcid, hyid]
      exact find?_min_of_idsSorted hsort2 hc0 y hy hpy

/-- C4 witness: completing match 3 of `c4State` marks row id 1 (the round-2
match, first in insertion order) current. -/
theorem C4_new_current_witness :
    c4w.is_current = true ∧ c4w ∈ c4Final ∧ c4w.id ≤ c4w.id := by
  have h := C4_new_current_first_in_insertion_order c4State 3 (some 14) c4Final 1 c4w
    (by unfold idsSorted; decide) (by unfold oneTournament; decide) (by rfl) (by rfl)
  exact ⟨h.1, h.2.1, h.2.2 c4w h.2.1 (by decide)⟩

/-! ## Infrastructure for the current-match invariant (C2) -/

theorem find?_split {p : Match → Bool} :
    ∀ {l : DB} {a : Match}, l.find? p = some a →
      ∃ u v, l = u ++ a :: v ∧ ∀ x ∈ u, p x = false := by
  intro l
  induction l with
  | nil => intro a h; cases h
  | cons x xs ih =>
    intro a h
    rw [List.find?_cons] at h
    cases hpx : p x with
    | true =>
      rw [hpx] at h
      have : x = a := by simpa using h
      subst this
      exact ⟨[], xs, rfl, by intro y hy; cases hy⟩
    | false =>
      rw [hpx] at h
      obtain ⟨u, v, huv, hu⟩ := ih h
      refine ⟨x :: u, v, by rw [huv]; rfl, ?_⟩
      intro y hy
      rcases List.mem_cons.mp hy with hyx | hyu
      · subst hyx; exact hpx
      · exact hu y hyu

theorem find?_append_cons {p : Match → Bool} {u v : DB} {a : Match}
    (hu : ∀ x ∈ u, p x = false) (ha : p a = true) :
    (u ++ a :: v).find? p = some a := by
  induction u with
  | nil => simp [List.find?_cons, ha]
  | cons x xs ih =>
    have hx : p x = false := hu x (List.mem_cons_self _ _)
    rw [List.cons_append, List.find?_cons, hx]
    exact ih (fun y hy => hu y (List.mem_cons_of_mem _ hy))

theorem map_split {g : Match → Match} :
    ∀ {u' : DB} {m' : Match} {v' s : DB}, s.map g = u' ++ m' :: v' →
      ∃ u m v, s = u ++ m :: v ∧ u.map g = u' ∧ g m = m' ∧ v.map g = v' := by
  intro u'
  induction u' with
  | nil =>
    intro m' v' s h
    cases s with
    | nil => cases h
    | cons y s2 =>
      rw [List.map_cons, List.nil_append] at h
      exact ⟨[], y, s2, rfl, rfl, (List.cons.inj h).1, (List.cons.inj h).2⟩
  | cons a u' ih =>
    intro m' v' s h
    cases s with
    | nil => cases h
    | cons y s2 =>
      rw [List.map_cons, List.cons_append] at h
      obtain ⟨u, m, v, hs, hu, hm, hv⟩ := ih (List.cons.inj h).2
      exact ⟨y :: u, m, v, by rw [hs, List.cons_append],
        by rw [List.map_cons, hu, (List.cons.inj h).1], hm, hv⟩

/-- `setM` with an id/next-preserving function keeps the forward-link
property. -/
theorem forwardLinks_setM {s : DB} (hf : forwardLinks s) (mid : Nat)
    (f : Match → Match) (hid : ∀ x, (f x).id = x.id)
    (hnx : ∀ x, (f x).next_match_id = x.next_match_id) :
    forwardLinks (setM s mid f) := by
  intro u' m' v' hsplit nid hnext
  obtain ⟨u, m, v, hs, hu, hm, hv⟩ := map_split hsplit
  have hmnext : m.next_match_id = some nid := by
    rw [← hnext, ← hm]
    by_cases h : (m.id == mid) = true <;> simp [h, hnx]
  obtain ⟨h1, h2⟩ := hf u m v hs nid hmnext
  constructor
  · intro x' hx'
    rw [← hu] at hx'
    obtain ⟨x, hx, hxx⟩ := List.mem_map.mp hx'
    have : x'.id = x.id := by
      rw [← hxx]
      by_cases h : (x.id == mid) = true <;> simp [h, hid]
    rw [this]
    exact h1 x hx
  · have : m'.id = m.id := by
      rw [← hm]
      by_cases h : (m.id == mid) = true <;> simp [h, hid]
    rw [this]
    exact h2

/-- `setM` with an id/tournament-preserving function keeps `oneTournament`. -/
theorem oneTournament_setM {tid : Nat} {s : DB} (ht : oneTournament tid s)
    (mid : Nat) (f : Match → Match)
    (htf : ∀ x, (f x).tournament_id = x.tournament_id) :
    oneTournament tid (setM s mid f) := by
  intro x' hx'
  obtain ⟨x, hx, hxx⟩ := List.mem_map.mp hx'
  have : x'.tournament_id = x.tournament_id := by
    rw [← hxx]
    by_cases h : (x.id == mid) = true <;> simp [h, htf]
  rw [this]
  exact ht x hx

theorem idsNodup_setM {s : DB} (hn : idsNodup s) (mid : Nat)
    (f : Match → Match) (hid : ∀ x, (f x).id = x.id) :
    idsNodup (setM s mid f) := by
  unfold idsNodup
  rw [ids_setM s mid f hid]
  exact hn

theorem setM_id (s : DB) (mid : Nat) : setM s mid (fun x => x) = s := by
  unfold setM
  simp

/-- Characterization of step 2: it is a single by-id update with a function
preserving id, tournament, link, current and completion flags; when the
update is a real slot write, its target is the completed match's successor
id. -/
theorem completeStep2_shape (s1 : DB) (m : Match) (w : Option Nat) :
    ∃ tgt f, completeStep2 s1 m w = setM s1 tgt f ∧
      (∀ x : Match, (f x).id = x.id) ∧
      (∀ x : Match, (f x).tournament_id = x.tournament_id) ∧
      (∀ x : Match, (f x).next_match_id = x.next_match_id) ∧
      (∀ x : Match, (f x).is_current = x.is_current) ∧
      ((∀ x, f x = x) ∨ m.next_match_id = some tgt) := by
  unfold completeStep2
  split
  · exact ⟨0, fun x => x, (setM_id s1 0).symm, fun _ => rfl, fun _ => rfl,
      fun _ => rfl, fun _ => rfl, Or.inl (fun _ => rfl)⟩
  next nid hnid =>
    split
    · exact ⟨0, fun x => x, (setM_id s1 0).symm, fun _ => rfl, fun _ => rfl,
        fun _ => rfl, fun _ => rfl, Or.inl (fun _ => rfl)⟩
    next nm hnm =>
      split
      · exact ⟨nid, updSlot1 w, rfl, fun _ => rfl, fun _ => rfl,
          fun _ => rfl, fun _ => rfl, Or.inr hnid⟩
      · exact ⟨nid, updSlot2 w, rfl, fun _ => rfl, fun _ => rfl,
          fun _ => rfl, fun _ => rfl, Or.inr hnid⟩

/-- The heart of the C2 invariant: completing a playable match other than the
table's first playable row leaves that row the first playable row. -/
theorem head_stable (tid : Nat) (s : DB) (mid : Nat) (w : Option Nat)
    (m : Match) (hm : getM s mid = some m)
    (hn : idsNodup s) (hf : forwardLinks s) (hPm : slotPlayable tid m = true)
    {H : Match} (hH : s.find? (slotPlayable tid) = some H) (hHmid : H.id ≠ mid) :
    (completeStep2 (completeStep1 s mid w) m w).find? (slotPlayable tid) = some H := by
  obtain ⟨tgt, f, hshape, hfid, hftid, hfnx, hfcur, hftgt⟩ :=
    completeStep2_shape (completeStep1 s mid w) m w
  obtain ⟨u, v, huv, huP⟩ := find?_split hH
  have hmidm : m.id = mid := getM_id_eq hm
  have hPH : slotPlayable tid H = true :=
    @List.find?_some Match (slotPlayable tid) H s hH
  have hmH : m ≠ H := fun he => hHmid (by rw [← he, hmidm])
  have hmemm : m ∈ s := getM_mem hm
  have hmv : m ∈ v := by
    have hms := hmemm
    rw [huv] at hms
    rcases List.mem_append.mp hms with h | h
    · rw [huP m h] at hPm
      cases hPm
    · rcases List.mem_cons.mp h with h | h
      · exact absurd h hmH
      · exact h
  obtain ⟨v1, v2, hv12⟩ := List.append_of_mem hmv
  have hsplitm : s = (u ++ H :: v1) ++ m :: v2 := by
    rw [huv, hv12]
    simp
  have htgt : ∀ x : Match, x ∈ u ∨ x = H → (∀ y, f y = y) ∨ x.id ≠ tgt := by
    intro x hx
    rcases hftgt with hid | hnext
    · exact Or.inl hid
    · obtain ⟨h1, _⟩ := hf (u ++ H :: v1) m v2 hsplitm tgt hnext
      rcases hx with hxu | hxH
      · exact Or.inr (h1 x (List.mem_append.mpr (Or.inl hxu)))
      · exact Or.inr (by
          rw [hxH]
          exact h1 H (List.mem_append.mpr (Or.inr (List.mem_cons_self _ _))))
  -- the composite of the two pointwise updates
  have hs2 : completeStep2 (completeStep1 s mid w) m w =
      s.map (fun y => (fun x => if x.id == tgt then f x else x)
        ((fun x => if x.id == mid then updComplete w x else x) y)) := by
    rw [hshape]
    unfold completeStep1 setM
    rw [List.map_map]
    rfl
  rw [hs2, huv, List.map_append, List.map_cons]
  have hGH : (fun y => (fun x => if x.id == tgt then f x else x)
      ((fun x => if x.id == mid then updComplete w x else x) y)) H = H := by
    have h1 : (H.id == mid) = false := by simpa using hHmid
    rcases htgt H (Or.inr rfl) with hid | hne
    · simp [h1, hid]
    · have h2 : (H.id == tgt) = false := by simpa using hne
      simp [h1, h2]
  rw [hGH]
  apply find?_append_cons _ hPH
  intro x' hx'
  obtain ⟨x, hx, hxx⟩ := List.mem_map.mp hx'
  have hxmid : (x.id == mid) = false := by
    by_contra hc
    have hxid : x.id = mid := by
      have hb : (x.id == mid) = true := by
        revert hc
        cases x.id == mid <;> simp
      simpa using hb
    have hxm : x = m := by
      apply eq_of_mem_of_id_eq hn (by rw [huv]; exact List.mem_append.mpr (Or.inl hx)) hmemm
      rw [hxid, hmidm]
    rw [hxm] at hx
    rw [huP m hx] at hPm
    cases hPm
  have hxtgt : x' = x := by
    rw [← hxx]
    rcases htgt x (Or.inl hx) with hid | hne
    · simp [hxmid, hid]
    · have h2 : (x.id == tgt) = false := by simpa using hne
      simp [hxmid, h2]
  rw [hxtgt]
  exact huP x hx

/-- One engine-internal completion of a not-yet-completed, fully populated
match (or a 404) preserves all structural invariants and the
current-is-first-playable invariant. -/
theorem complete_match_preserves (tid : Nat) (s : DB) (mid : Nat) (w : Option Nat)
    (hn : idsNodup s) (hf : forwardLinks s) (ht : oneTournament tid s)
    (hinv : currentIsFirstPlayable tid s)
    (hgood : ∀ m, getM s mid = some m →
      m.is_completed = false ∧ m.team1_id.isSome = true ∧ m.team2_id.isSome = true) :
    idsNodup ((complete_match s mid w).getD s) ∧
    forwardLinks ((complete_match s mid w).getD s) ∧
    oneTournament tid ((complete_match s mid w).getD s) ∧
    currentIsFirstPlayable tid ((complete_match s mid w).getD s) := by
  cases hm : getM s mid with
  | none =>
    have hnone : complete_match s mid w = none := by
      unfold complete_match
      rw [hm]
    rw [hnone]
    exact ⟨hn, hf, ht, hinv⟩
  | some m =>
    have hs3 : (complete_match s mid w).getD s =
        completeStep3 (completeStep2 (completeStep1 s mid w) m w) m.tournament_id := by
      unfold complete_match
      rw [hm]
      rfl
    have htidm : m.tournament_id = tid := ht m (getM_mem hm)
    obtain ⟨hcm, hsl1, hsl2⟩ := hgood m hm
    have hPm : slotPlayable tid m = true := by
      unfold slotPlayable
      rw [htidm, hcm, hsl1, hsl2]
      simp
    rw [hs3, htidm]
    obtain ⟨tgt, f, hshape, hfid, hftid, hfnx, hfcur, hftgt⟩ :=
      completeStep2_shape (completeStep1 s mid w) m w
    have hn1 : idsNodup (completeStep1 s mid w) := idsNodup_setM hn mid _ (fun _ => rfl)
    have hn2 : idsNodup (completeStep2 (completeStep1 s mid w) m w) := by
      rw [hshape]
      exact idsNodup_setM hn1 tgt f hfid
    have hf1 : forwardLinks (completeStep1 s mid w) :=
      forwardLinks_setM hf mid _ (fun _ => rfl) (fun _ => rfl)
    have hf2 : forwardLinks (completeStep2 (completeStep1 s mid w) m w) := by
      rw [hshape]
      exact forwardLinks_setM hf1 tgt f hfid hfnx
    have ht1 : oneTournament tid (completeStep1 s mid w) :=
      oneTournament_setM ht mid _ (fun _ => rfl)
    have ht2 : oneTournament tid (completeStep2 (completeStep1 s mid w) m w) := by
      rw [hshape]
      exact oneTournament_setM ht1 tgt f hftid
    have hcur2 : ∀ x ∈ completeStep2 (completeStep1 s mid w) m w, x.is_current = true →
        ∃ y ∈ s, y.is_current = true ∧ y.id ≠ mid ∧ x.id = y.id := by
      intro x hx hcx
      rw [hshape] at hx
      unfold setM at hx
      obtain ⟨y1, hy1, hxy1⟩ := List.mem_map.mp hx
      have hx1 : x.is_current = y1.is_current ∧ x.id = y1.id := by
        rw [← hxy1]
        by_cases h : (y1.id == tgt) = true
        · rw [if_pos h]
          exact ⟨hfcur y1, hfid y1⟩
        · rw [if_neg h]
          exact ⟨rfl, rfl⟩
      unfold completeStep1 setM at hy1
      obtain ⟨y, hy, hy1y⟩ := List.mem_map.mp hy1
      by_cases hym : (y.id == mid) = true
      · rw [← hy1y, if_pos hym] at hx1
        have hfalse : x.is_current = false := hx1.1
        rw [hcx] at hfalse
        cases hfalse
      · rw [← hy1y, if_neg hym] at hx1
        exact ⟨y, hy, by rw [← hx1.1]; exact hcx, by simpa using hym, hx1.2⟩
    cases hc0 : (completeStep2 (completeStep1 s mid w) m w).find? (slotPlayable tid) with
    | none =>
      have hs3eq : completeStep3 (completeStep2 (completeStep1 s mid w) m w) tid =
          completeStep2 (completeStep1 s mid w) m w := by
        unfold completeStep3
        rw [hc0]
      rw [hs3eq]
      refine ⟨hn2, hf2, ht2, ?_⟩
      intro x hx hcx
      obtain ⟨y, hy, hycur, hymid, hxid⟩ := hcur2 x hx hcx
      have hHy : s.find? (slotPlayable tid) = some y := hinv y hy hycur
      have hstb := head_stable tid s mid w m hm hn hf hPm hHy hymid
      rw [hc0] at hstb
      cases hstb
    | some c0 =>
      have hs3eq : completeStep3 (completeStep2 (completeStep1 s mid w) m w) tid =
          setM (completeStep2 (completeStep1 s mid w) m w) c0.id updCurrent := by
        unfold completeStep3
        rw [hc0]
      rw [hs3eq]
      refine ⟨idsNodup_setM hn2 _ _ (fun _ => rfl),
        forwardLinks_setM hf2 _ _ (fun _ => rfl) (fun _ => rfl),
        oneTournament_setM ht2 _ _ (fun _ => rfl), ?_⟩
      have hfind3 : (setM (completeStep2 (completeStep1 s mid w) m w) c0.id updCurrent).find?
          (slotPlayable tid) = some (updCurrent c0) := by
        rw [find?_setM_pred (completeStep2 (completeStep1 s mid w) m w) c0.id updCurrent
          (slotPlayable tid) (fun _ => rfl), hc0]
        simp
      intro x hx hcx
      rw [hfind3]
      unfold setM at hx
      obtain ⟨y2, hy2, hxy2⟩ := List.mem_map.mp hx
      by_cases h : (y2.id == c0.id) = true
      · have hy2c0 : y2 = c0 :=
          eq_of_mem_of_id_eq hn2 hy2 (List.mem_of_find?_eq_some hc0) (by simpa using h)
        rw [← hxy2, if_pos h, hy2c0]
      · have hxeq : x = y2 := by rw [← hxy2, if_neg h]
        rw [hxeq] at hcx
        obtain ⟨y, hy, hycur, hymid, hy2id⟩ := hcur2 y2 hy2 hcx
        have hHy : s.find? (slotPlayable tid) = some y := hinv y hy hycur
        have hstb := head_stable tid s mid w m hm hn hf hPm hHy hymid
        rw [hc0] at hstb
        have hyc0 : c0 = y := Option.some.inj hstb
        exact absurd (by rw [hy2id, ← hyc0] : y2.id = c0.id) (by simpa using h)

/-- Engine-consistent current flags imply at most one current match. -/
theorem at_most_one_current_of_inv {tid : Nat} {s : DB}
    (hn : idsNodup s) (hinv : currentIsFirstPlayable tid s) :
    countCurrent s ≤ 1 := by
  unfold countCurrent
  rw [List.countP_eq_length_filter]
  cases hfil : s.filter (fun m => m.is_current) with
  | nil => simp
  | cons a tl =>
    cases htl : tl with
    | nil => simp
    | cons b tl2 =>
      exfalso
      have ha : a ∈ s.filter (fun m => m.is_current) := by
        rw [hfil]
        exact List.mem_cons_self _ _
      have hb : b ∈ s.filter (fun m => m.is_current) := by
        rw [hfil, htl]
        exact List.mem_cons_of_mem _ (List.mem_cons_self _ _)
      have ha' := List.mem_filter.mp ha
      have hb' := List.mem_filter.mp hb
      have hha := hinv a ha'.1 ha'.2
      have hhb := hinv b hb'.1 hb'.2
      have hab : a = b := by
        rw [hha] at hhb
        exact Option.some.inj hhb
      have hnf : idsNodup (s.filter (fun m => m.is_current)) :=
        List.Nodup.sublist (List.Sublist.map _ (List.filter_sublist s)) hn
      rw [hfil, htl] at hnf
      unfold idsNodup at hnf
      rw [List.map_cons, List.map_cons, List.nodup_cons] at hnf
      exact hnf.1 (by rw [hab]; exact List.mem_cons_self _ _)

/-- C2 (amended): starting from a well-formed tournament state — distinct
ids, forward next-match links, and every current match being the first
not-completed fully populated row in table order (the state the engine's own
recompute establishes; at most one match is then current) — any finite
sequence of `complete_match` calls, each targeting an existing
not-yet-completed match with both slots populated or a nonexistent id,
leaves at most one match of the tournament with `is_current = true`. -/
theorem C2_at_most_one_current :
    ∀ (tid : Nat) (s : DB) (cmds : List (Nat × Option Nat)),
      idsNodup s → forwardLinks s → oneTournament tid s →
      currentIsFirstPlayable tid s →
      goodRun tid s cmds →
      countCurrent (runCompletions s cmds) ≤ 1 := by
  intro tid s cmds
  induction cmds generalizing s with
  | nil =>
    intro hn _ _ hinv _
    exact at_most_one_current_of_inv hn hinv
  | cons c cs ih =>
    intro hn hf ht hinv hgr
    obtain ⟨hgood, hgr2⟩ := hgr
    obtain ⟨hn', hf', ht', hinv'⟩ := complete_match_preserves tid s c.1 c.2 hn hf ht hinv hgood
    have hrun : runCompletions s (c :: cs) =
        runCompletions ((complete_match s c.1 c.2).getD s) cs := rfl
    rw [hrun]
    exact ih _ hn' hf' ht' hinv' hgr2

/-- C2 witness: completing the current first match of `c2wState` leaves at
most one current match. -/
theorem C2_at_most_one_current_witness :
    countCurrent (runCompletions c2wState [(1, some 10)]) ≤ 1 := by
  have hf : forwardLinks c2wState := by
    intro u m v hsplit nid hnext
    have hmem : m ∈ c2wState := by
      rw [hsplit]
      exact List.mem_append.mpr (Or.inr (List.mem_cons_self _ _))
    have : m = c2wM1 ∨ m = c2wM2 := by
      simpa [c2wState] using hmem
    rcases this with rfl | rfl <;> simp [c2wM1, c2wM2] at hnext
  have hinv : currentIsFirstPlayable 1 c2wState := by
    intro m hm hcur
    have : m = c2wM1 ∨ m = c2wM2 := by
      simpa [c2wState] using hm
    rcases this with rfl | rfl <;> simp [c2wM1, c2wM2] at hcur
  have hgr : goodRun 1 c2wState [(1, some 10)] := by
    refine ⟨?_, trivial⟩
    intro m hmm
    have h1 : getM c2wState 1 = some c2wM1 := rfl
    rw [h1] at hmm
    injection hmm with h2
    subst h2
    exact ⟨rfl, rfl, rfl⟩
  exact C2_at_most_one_current 1 c2wState [(1, some 10)]
    (by unfold idsNodup; decide) hf (by unfold oneTournament; decide) hinv hgr

/-! ## Infrastructure for the double-elimination seeding claim (C5) -/

theorem find?_range'_first {p : Nat → Bool} :
    ∀ {len s R : Nat}, (List.range' s len).find? p = some R →
      p R = true ∧ s ≤ R ∧ ∀ j, s ≤ j → j < R → p j = false := by
  intro len
  induction len with
  | zero => intro s R h; simp [List.range'] at h
  | succ k ih =>
    intro s R h
    rw [List.range'_succ] at h
    cases hp : p s with
    | false =>
      rw [List.find?_cons_of_neg _ (by simp [hp])] at h
      obtain ⟨h1, h2, h3⟩ := ih h
      refine ⟨h1, by omega, ?_⟩
      intro j hj1 hj2
      rcases Nat.eq_or_lt_of_le hj1 with rfl | hlt
      · exact hp
      · exact h3 j hlt hj2
    | true =>
      rw [List.find?_cons_of_pos _ hp] at h
      injection h with h
      subst h
      exact ⟨hp, Nat.le_refl _, fun j hj1 hj2 => absurd hj1 (by omega)⟩

theorem le_pow_ceilLog2 (n : Nat) : n ≤ 2 ^ ceilLog2 n := by
  unfold ceilLog2
  cases hf : (List.range' 0 (n + 1)).find? (fun R => decide (n ≤ 2 ^ R)) with
  | none =>
    exfalso
    have hmem : n ∈ List.range' 0 (n + 1) := by
      rw [List.mem_range'_1]; omega
    have hn := List.find?_eq_none.mp hf n hmem
    simp at hn
    have hp := Nat.lt_two_pow n
    omega
  | some R =>
    have h1 := (find?_range'_first hf).1
    simpa using h1

theorem lt_of_lt_ceilLog2 {n j : Nat} (h : j < ceilLog2 n) : 2 ^ j < n := by
  unfold ceilLog2 at h
  cases hf : (List.range' 0 (n + 1)).find? (fun R => decide (n ≤ 2 ^ R)) with
  | none =>
    exfalso
    have hmem : n ∈ List.range' 0 (n + 1) := by
      rw [List.mem_range'_1]; omega
    have hn := List.find?_eq_none.mp hf n hmem
    simp at hn
    have hp := Nat.lt_two_pow n
    omega
  | some R =>
    rw [hf] at h
    have h3 := (find?_range'_first hf).2.2 j (Nat.zero_le j) h
    simp at h3
    omega

theorem two_le_ceilLog2 {n : Nat} (h3 : 3 ≤ n) : 2 ≤ ceilLog2 n := by
  by_contra hlt
  push_neg at hlt
  have h1 : n ≤ 2 ^ ceilLog2 n := le_pow_ceilLog2 n
  have h2 : (2 : Nat) ^ ceilLog2 n ≤ 2 ^ 1 := Nat.pow_le_pow_right (by omega) (by omega)
  have h21 : (2 : Nat) ^ 1 = 2 := rfl
  omega

theorem fillView_nil (K i : Nat) (x : Match) : fillView K i [] x = x := by
  unfold fillView
  rw [if_neg (by simp only [List.length_nil]; omega),
      if_neg (by simp only [List.length_nil]; omega)]

theorem byeView_nil (K Q i : Nat) (x : Match) : byeView K Q i [] x = x := by
  unfold byeView
  rw [if_neg (by simp only [List.length_nil]; omega)]

theorem deFill_eq_map (fr : DB) (K : Nat)
    (hfr : ∀ j, (fr.get? j).map (fun m => m.id) =
      if j < K then some (j + 1) else none) :
    ∀ (ts : List Nat) (i : Nat) (st : DB),
      deFill fr st i ts = st.map (fillView K i ts) := by
  intro ts
  induction ts with
  | nil =>
    intro i st
    show st = st.map (fillView K i [])
    have hm : st.map (fillView K i []) = st.map (fun x => x) :=
      List.map_congr_left (fun x _ => fillView_nil K i x)
    rw [hm, List.map_id']
  | cons t rest ih =>
    intro i st
    by_cases hiK : i / 2 < K
    · cases hg : fr.get? (i / 2) with
      | none =>
        exfalso
        have hj := hfr (i / 2)
        rw [hg, if_pos hiK] at hj
        simp at hj
      | some fm =>
        have hfmid : fm.id = i / 2 + 1 := by
          have hj := hfr (i / 2)
          rw [hg, if_pos hiK] at hj
          simpa using hj
        have hred : deFill fr st i (t :: rest) =
            deFill fr (if i % 2 == 0 then setM st fm.id (updSlot1 (some t))
              else setM st fm.id (updSlot2 (some t))) (i + 1) rest := by
          simp only [deFill, hg]
        by_cases hpar : i % 2 = 0
        · rw [hred, if_pos (show (i % 2 == 0) = true by simp [hpar])]
          rw [ih (i + 1) (setM st fm.id (updSlot1 (some t)))]
          unfold setM
          rw [List.map_map]
          apply List.map_congr_left
          intro x _
          simp only [Function.comp_apply]
          by_cases hx : x.id = i / 2 + 1
          · rw [if_pos (show (x.id == fm.id) = true by simp [hfmid, hx])]
            dsimp only [fillView, updSlot1]
            simp only [List.length_cons]
            rw [Match.mk.injEq]
            refine ⟨rfl, rfl, rfl, rfl, ?_, ?_, rfl, rfl, rfl, rfl, rfl, rfl, rfl, rfl⟩
            · rw [if_neg (by omega), if_pos (by omega),
                  (by omega : 2 * (x.id - 1) - i = 0)]
              exact List.get?_cons_zero.symm
            · by_cases h0 : 0 < rest.length
              · rw [if_pos (by omega), if_pos (by omega),
                    (by omega : 2 * (x.id - 1) + 1 - (i + 1) = 0),
                    (by omega : 2 * (x.id - 1) + 1 - i = 0 + 1),
                    List.get?_cons_succ]
              · rw [if_neg (by omega), if_neg (by omega)]
          · rw [if_neg (show ¬(x.id == fm.id) = true by
              simp only [beq_iff_eq, hfmid]; exact hx)]
            dsimp only [fillView]
            simp only [List.length_cons]
            rw [Match.mk.injEq]
            refine ⟨rfl, rfl, rfl, rfl, ?_, ?_, rfl, rfl, rfl, rfl, rfl, rfl, rfl, rfl⟩
            · by_cases hC : 1 ≤ x.id ∧ x.id ≤ K ∧ i + 1 ≤ 2 * (x.id - 1) ∧
                  2 * (x.id - 1) < i + 1 + rest.length
              · rw [if_pos hC, if_pos (by omega),
                    (by omega : 2 * (x.id - 1) - i = 2 * (x.id - 1) - (i + 1) + 1),
                    List.get?_cons_succ]
              · rw [if_neg hC, if_neg (by omega)]
            · by_cases hC : 1 ≤ x.id ∧ x.id ≤ K ∧ i + 1 ≤ 2 * (x.id - 1) + 1 ∧
                  2 * (x.id - 1) + 1 < i + 1 + rest.length
              · rw [if_pos hC, if_pos (by omega),
                    (by omega : 2 * (x.id - 1) + 1 - i =
                      2 * (x.id - 1) + 1 - (i + 1) + 1),
                    List.get?_cons_succ]
              · rw [if_neg hC, if_neg (by omega)]
        · rw [hred, if_neg (show ¬(i % 2 == 0) = true by
            simp only [beq_iff_eq]; exact hpar)]
          rw [ih (i + 1) (setM st fm.id (updSlot2 (some t)))]
          unfold setM
          rw [List.map_map]
          apply List.map_congr_left
          intro x _
          simp only [Function.comp_apply]
          by_cases hx : x.id = i / 2 + 1
          · rw [if_pos (show (x.id == fm.id) = true by simp [hfmid, hx])]
            dsimp only [fillView, updSlot2]
            simp only [List.length_cons]
            rw [Match.mk.injEq]
            refine ⟨rfl, rfl, rfl, rfl, ?_, ?_, rfl, rfl, rfl, rfl, rfl, rfl, rfl, rfl⟩
            · rw [if_neg (by omega), if_neg (by omega)]
            · rw [if_neg (by omega), if_pos (by omega),
                  (by omega : 2 * (x.id - 1) + 1 - i = 0)]
              exact List.get?_cons_zero.symm
          · rw [if_neg (show ¬(x.id == fm.id) = true by
              simp only [beq_iff_eq, hfmid]; exact hx)]
            dsimp only [fillView]
            simp only [List.length_cons]
            rw [Match.mk.injEq]
            refine ⟨rfl, rfl, rfl, rfl, ?_, ?_, rfl, rfl, rfl, rfl, rfl, rfl, rfl, rfl⟩
            · by_cases hC : 1 ≤ x.id ∧ x.id ≤ K ∧ i + 1 ≤ 2 * (x.id - 1) ∧
                  2 * (x.id - 1) < i + 1 + rest.length
              · rw [if_pos hC, if_pos (by omega),
                    (by omega : 2 * (x.id - 1) - i = 2 * (x.id - 1) - (i + 1) + 1),
                    List.get?_cons_succ]
              · rw [if_neg hC, if_neg (by omega)]
            · by_cases hC : 1 ≤ x.id ∧ x.id ≤ K ∧ i + 1 ≤ 2 * (x.id - 1) + 1 ∧
                  2 * (x.id - 1) + 1 < i + 1 + rest.length
              · rw [if_pos hC, if_pos (by omega),
                    (by omega : 2 * (x.id - 1) + 1 - i =
                      2 * (x.id - 1) + 1 - (i + 1) + 1),
                    List.get?_cons_succ]
              · rw [if_neg hC, if_neg (by omega)]
    · cases hg : fr.get? (i / 2) with
      | some fm =>
        exfalso
        have hj := hfr (i / 2)
        rw [hg, if_neg hiK] at hj
        simp at hj
      | none =>
        have hred : deFill fr st i (t :: rest) = deFill fr st (i + 1) rest := by
          simp only [deFill, hg]
        rw [hred, ih (i + 1) st]
        apply List.map_congr_left
        intro x _
        dsimp only [fillView]
        simp only [List.length_cons]
        rw [Match.mk.injEq]
        refine ⟨rfl, rfl, rfl, rfl, ?_, ?_, rfl, rfl, rfl, rfl, rfl, rfl, rfl, rfl⟩
        · rw [if_neg (by omega), if_neg (by omega)]
        · rw [if_neg (by omega), if_neg (by omega)]

theorem deByes_eq_map (sr : DB) (K Q : Nat)
    (hsr : ∀ j, (sr.get? j).map (fun m => m.id) =
      if j < Q then some (K + j + 1) else none) :
    ∀ (bs : List Nat) (i : Nat) (st : DB),
      (∀ x ∈ st, K + 1 + i ≤ x.id → x.id ≤ K + Q → x.team1_id = none) →
      deByes sr st i bs = st.map (byeView K Q i bs) := by
  intro bs
  induction bs with
  | nil =>
    intro i st _
    show st = st.map (byeView K Q i [])
    have hm : st.map (byeView K Q i []) = st.map (fun x => x) :=
      List.map_congr_left (fun x _ => byeView_nil K Q i x)
    rw [hm, List.map_id']
  | cons b rest ih =>
    intro i st hnone
    by_cases hiQ : i < Q
    · cases hg : sr.get? i with
      | none =>
        exfalso
        have hj := hsr i
        rw [hg, if_pos hiQ] at hj
        simp at hj
      | some sm =>
        have hsmid : sm.id = K + i + 1 := by
          have hj := hsr i
          rw [hg, if_pos hiQ] at hj
          simpa using hj
        cases hlive : getM st sm.id with
        | none =>
          have hno : ∀ x ∈ st, ¬(x.id = K + i + 1) := by
            intro x hx
            have hfx := List.find?_eq_none.mp hlive x hx
            simpa [hsmid] using hfx
          have hred : deByes sr st i (b :: rest) = deByes sr st (i + 1) rest := by
            simp only [deByes, hg, hlive]
          have hsucc : ∀ x ∈ st, K + 1 + (i + 1) ≤ x.id → x.id ≤ K + Q →
              x.team1_id = none := by
            intro x hx h1 h2
            exact hnone x hx (by omega) h2
          rw [hred, ih (i + 1) st hsucc]
          apply List.map_congr_left
          intro x hx
          have hxne := hno x hx
          dsimp only [byeView]
          simp only [List.length_cons]
          rw [Match.mk.injEq]
          refine ⟨rfl, rfl, rfl, rfl, ?_, rfl, rfl, rfl, rfl, rfl, rfl, rfl, rfl, rfl⟩
          by_cases hC : K + 1 + (i + 1) ≤ x.id ∧ x.id ≤ K + Q ∧
              x.id < K + 1 + (i + 1) + rest.length
          · rw [if_pos hC, if_pos (by omega),
                (by omega : x.id - (K + 1 + i) = x.id - (K + 1 + (i + 1)) + 1),
                List.get?_cons_succ]
          · rw [if_neg hC, if_neg (by omega)]
        | some live =>
          have hlmem : live ∈ st := getM_mem hlive
          have hlid : live.id = sm.id := getM_id_eq hlive
          have hlnone : live.team1_id = none :=
            hnone live hlmem (by omega) (by omega)
          have hred : deByes sr st i (b :: rest) =
              deByes sr (setM st sm.id (updSlot1 (some b))) (i + 1) rest := by
            simp only [deByes, hg, hlive, hlnone, Option.isNone_none, if_true]
          have hsucc : ∀ x ∈ setM st sm.id (updSlot1 (some b)),
              K + 1 + (i + 1) ≤ x.id → x.id ≤ K + Q → x.team1_id = none := by
            intro x hx h1 h2
            unfold setM at hx
            rcases List.mem_map.mp hx with ⟨y, hy, rfl⟩
            by_cases hyid : (y.id == sm.id) = true
            · exfalso
              have hye : y.id = K + i + 1 := by
                have hb := beq_iff_eq.mp hyid
                omega
              rw [if_pos hyid] at h1
              dsimp only [updSlot1] at h1
              omega
            · rw [if_neg hyid] at h1 h2 ⊢
              exact hnone y hy (by omega) h2
          rw [hred, ih (i + 1) (setM st sm.id (updSlot1 (some b))) hsucc]
          unfold setM
          rw [List.map_map]
          apply List.map_congr_left
          intro x _
          simp only [Function.comp_apply]
          by_cases hxid : x.id = K + i + 1
          · rw [if_pos (show (x.id == sm.id) = true by simp [hsmid, hxid])]
            dsimp only [byeView, updSlot1]
            simp only [List.length_cons]
            rw [Match.mk.injEq]
            refine ⟨rfl, rfl, rfl, rfl, ?_, rfl, rfl, rfl, rfl, rfl, rfl, rfl, rfl, rfl⟩
            rw [if_neg (by omega), if_pos (by omega),
                (by omega : x.id - (K + 1 + i) = 0)]
            exact List.get?_cons_zero.symm
          · rw [if_neg (show ¬(x.id == sm.id) = true by
              simp only [beq_iff_eq, hsmid]; omega)]
            dsimp only [byeView]
            simp only [List.length_cons]
            rw [Match.mk.injEq]
            refine ⟨rfl, rfl, rfl, rfl, ?_, rfl, rfl, rfl, rfl, rfl, rfl, rfl, rfl, rfl⟩
            by_cases hC : K + 1 + (i + 1) ≤ x.id ∧ x.id ≤ K + Q ∧
                x.id < K + 1 + (i + 1) + rest.length
            · rw [if_pos hC, if_pos (by omega),
                  (by omega : x.id - (K + 1 + i) = x.id - (K + 1 + (i + 1)) + 1),
                  List.get?_cons_succ]
            · rw [if_neg hC, if_neg (by omega)]
    · cases hg : sr.get? i with
      | some sm =>
        exfalso
        have hj := hsr i
        rw [hg, if_neg hiQ] at hj
        simp at hj
      | none =>
        have hred : deByes sr st i (b :: rest) = deByes sr st (i + 1) rest := by
          simp only [deByes, hg]
        have hsucc : ∀ x ∈ st, K + 1 + (i + 1) ≤ x.id → x.id ≤ K + Q →
            x.team1_id = none := by
          intro x hx h1 h2
          exact hnone x hx (by omega) h2
        rw [hred, ih (i + 1) st hsucc]
        apply List.map_congr_left
        intro x _
        dsimp only [byeView]
        simp only [List.length_cons]
        rw [Match.mk.injEq]
        refine ⟨rfl, rfl, rfl, rfl, ?_, rfl, rfl, rfl, rfl, rfl, rfl, rfl, rfl, rfl⟩
        rw [if_neg (by omega), if_neg (by omega)]

theorem de_unfold (tid : Nat) (teams : List Nat) (h3 : ¬teams.length < 3) :
    create_double_elimination_bracket tid teams =
      match ((deByesDone tid teams).filter (fun m => m.round_number == 1)).find?
          (fun m => truthy m.team1_id && truthy m.team2_id) with
      | none => deByesDone tid teams
      | some c => setM (deByesDone tid teams) c.id updCurrent := by
  rw [create_double_elimination_bracket, if_neg h3]
  rfl

theorem seOffset_one (B : Nat) : seOffset B 1 = 0 := by
  unfold seOffset
  norm_num

theorem seOffset_two (B : Nat) : seOffset B 2 = B - B / 2 := by
  unfold seOffset
  norm_num

theorem block_get? (f : Nat → Match) (len j : Nat) :
    ((List.range' 1 len).map f).get? j =
      if j < len then some (f (1 + j)) else none := by
  rw [List.get?_eq_getElem?, List.getElem?_map]
  by_cases h : j < len
  · rw [if_pos h, List.getElem?_range' 1 1 h]
    simp
  · rw [if_neg h, List.getElem?_eq_none (by rw [List.length_range']; omega)]
    rfl

theorem deWinners_split (tid B R : Nat) (hR : 2 ≤ R) :
    deWinners tid B R =
      ((List.range' 1 (B / 2)).map (fun k =>
        ({ id := seOffset B 1 + k, tournament_id := tid,
           round_number := 1, match_number := k,
           match_type := "bracket" } : Match))) ++
      (((List.range' 1 (B / 4)).map (fun k =>
        ({ id := seOffset B 2 + k, tournament_id := tid,
           round_number := 2, match_number := k,
           match_type := "bracket" } : Match))) ++
      (List.range' 3 (R - 2)).flatMap (fun r =>
        (List.range' 1 (B / 2 ^ r)).map (fun k =>
          ({ id := seOffset B r + k, tournament_id := tid,
             round_number := r, match_number := k,
             match_type := "bracket" } : Match)))) := by
  unfold deWinners
  have h1 : List.range' 1 R = 1 :: 2 :: List.range' 3 (R - 2) := by
    have ha : List.range' 1 R = 1 :: List.range' 2 (R - 1) := by
      conv_lhs => rw [(by omega : R = (R - 1) + 1)]
      exact List.range'_succ 1 (R - 1) 1
    have hb : List.range' 2 (R - 1) = 2 :: List.range' 3 (R - 2) := by
      conv_lhs => rw [(by omega : R - 1 = (R - 2) + 1)]
      exact List.range'_succ 2 (R - 2) 1
    rw [ha, hb]
  rw [h1, List.flatMap_cons, List.flatMap_cons]
  norm_num

theorem deWinners_facts (tid B R : Nat) :
    ∀ y ∈ deWinners tid B R,
      y.team1_id = none ∧ y.team2_id = none ∧ y.match_type = "bracket" := by
  intro y hy
  unfold deWinners at hy
  rcases List.mem_flatMap.mp hy with ⟨r, _, hyr⟩
  rcases List.mem_map.mp hyr with ⟨k, _, rfl⟩
  exact ⟨rfl, rfl, rfl⟩

theorem deLosersAcc_facts (tid B R : Nat) :
    ∀ x ∈ (deLosersAcc tid B R).1,
      101 ≤ x.round_number ∧ x.match_type = "losers_bracket" ∧
      x.team1_id = none ∧ x.team2_id = none ∧ B ≤ x.id := by
  unfold deLosersAcc
  generalize hL : List.range' 1 ((R - 1) * 2) = L
  have hL1 : ∀ r ∈ L, 1 ≤ r := by
    intro r hr
    rw [← hL, List.mem_range'_1] at hr
    omega
  clear hL
  suffices hgen : ∀ (L' : List Nat), (∀ r ∈ L', 1 ≤ r) →
      ∀ (init : DB) (c : Nat), 1 ≤ c →
      (∀ x ∈ init, 101 ≤ x.round_number ∧ x.match_type = "losers_bracket" ∧
        x.team1_id = none ∧ x.team2_id = none ∧ B ≤ x.id) →
      ∀ x ∈ (L'.foldl (fun (acc : DB × Nat) rn =>
          (acc.1 ++ (List.range (deLosersCount B rn)).map (fun j =>
            { id := (B - 1) + acc.2 + j, tournament_id := tid,
              round_number := 100 + rn, match_number := acc.2 + j,
              match_type := "losers_bracket" }), acc.2 + deLosersCount B rn))
          (init, c)).1,
        101 ≤ x.round_number ∧ x.match_type = "losers_bracket" ∧
        x.team1_id = none ∧ x.team2_id = none ∧ B ≤ x.id by
    intro x hx
    exact hgen L hL1 [] 1 (by omega) (by intro x hx; simp at hx) x hx
  intro L'
  induction L' with
  | nil =>
    intro _ init c _ hinit x hx
    exact hinit x hx
  | cons rn rest ih =>
    intro hL1 init c hc hinit x hx
    rw [List.foldl_cons] at hx
    refine ih (fun r hr => hL1 r (List.mem_cons_of_mem _ hr)) _ _ (by omega) ?_ x hx
    intro y hy
    rcases List.mem_append.mp hy with hyi | hyn
    · exact hinit y hyi
    · rcases List.mem_map.mp hyn with ⟨j, _, rfl⟩
      have hrn : 1 ≤ rn := hL1 rn (List.mem_cons_self _ _)
      refine ⟨?_, rfl, rfl, rfl, ?_⟩
      · show 101 ≤ 100 + rn
        omega
      · show B ≤ B - 1 + c + j
        omega

theorem wtail_facts (tid B R : Nat) :
    ∀ x ∈ (List.range' 3 (R - 2)).flatMap (fun r =>
      (List.range' 1 (B / 2 ^ r)).map (fun k =>
        ({ id := seOffset B r + k, tournament_id := tid,
           round_number := r, match_number := k,
           match_type := "bracket" } : Match))),
      3 ≤ x.round_number ∧ x.team1_id = none ∧ x.team2_id = none ∧
      B - B / 4 + 1 ≤ x.id := by
  intro x hx
  rcases List.mem_flatMap.mp hx with ⟨r, hr, hxr⟩
  rcases List.mem_map.mp hxr with ⟨k, hk, rfl⟩
  rw [List.mem_range'_1] at hr hk
  refine ⟨?_, rfl, rfl, ?_⟩
  · show 3 ≤ r
    omega
  · show B - B / 4 + 1 ≤ seOffset B r + k
    have h4 : (4 : Nat) ≤ 2 ^ (r - 1) := by
      have h22 : (2 : Nat) ^ 2 = 4 := rfl
      rw [← h22]
      exact Nat.pow_le_pow_right (by omega) (by omega)
    have hdiv : B / 2 ^ (r - 1) ≤ B / 4 := Nat.div_le_div_left h4 (by omega)
    unfold seOffset
    omega

theorem deAll0_filter1 (tid : Nat) (teams : List Nat) (R : Nat)
    (hRdef : ceilLog2 teams.length = R) (hR2 : 2 ≤ R) :
    (deAll0 tid teams).filter (fun m => m.round_number == 1) =
      (List.range' 1 (2 ^ R / 2)).map (fun k =>
        ({ id := seOffset (2 ^ R) 1 + k, tournament_id := tid,
           round_number := 1, match_number := k,
           match_type := "bracket" } : Match)) := by
  unfold deAll0
  rw [hRdef, deWinners_split tid (2 ^ R) R hR2]
  have hkeep : ∀ a ∈ (List.range' 1 (2 ^ R / 2)).map (fun k =>
      ({ id := seOffset (2 ^ R) 1 + k, tournament_id := tid,
         round_number := 1, match_number := k,
         match_type := "bracket" } : Match)), (a.round_number == 1) = true := by
    intro a ha
    rcases List.mem_map.mp ha with ⟨k, _, rfl⟩
    rfl
  have hd2 : ∀ a ∈ (List.range' 1 (2 ^ R / 4)).map (fun k =>
      ({ id := seOffset (2 ^ R) 2 + k, tournament_id := tid,
         round_number := 2, match_number := k,
         match_type := "bracket" } : Match)), ¬(a.round_number == 1) = true := by
    intro a ha
    rcases List.mem_map.mp ha with ⟨k, _, rfl⟩
    simp
  have hd3 : ∀ a ∈ (List.range' 3 (R - 2)).flatMap (fun r =>
      (List.range' 1 (2 ^ R / 2 ^ r)).map (fun k =>
        ({ id := seOffset (2 ^ R) r + k, tournament_id := tid,
           round_number := r, match_number := k,
           match_type := "bracket" } : Match))), ¬(a.round_number == 1) = true := by
    intro a ha
    have h3 := (wtail_facts tid (2 ^ R) R a ha).1
    simp only [beq_iff_eq]
    omega
  have hdL : ∀ a ∈ (deLosersAcc tid (2 ^ R) R).1, ¬(a.round_number == 1) = true := by
    intro a ha
    have h101 := (deLosersAcc_facts tid (2 ^ R) R a ha).1
    simp only [beq_iff_eq]
    omega
  simp only [List.filter_append]
  rw [List.filter_eq_self.mpr hkeep, List.filter_eq_nil_iff.mpr hd2,
      List.filter_eq_nil_iff.mpr hd3, List.filter_eq_nil_iff.mpr hdL,
      List.filter_cons_of_neg (by simp), List.filter_nil]
  simp

theorem deAll0_filter2 (tid : Nat) (teams : List Nat) (R : Nat)
    (hRdef : ceilLog2 teams.length = R) (hR2 : 2 ≤ R) :
    (deAll0 tid teams).filter
        (fun m => m.round_number == 2 && m.match_type == "bracket") =
      (List.range' 1 (2 ^ R / 4)).map (fun k =>
        ({ id := seOffset (2 ^ R) 2 + k, tournament_id := tid,
           round_number := 2, match_number := k,
           match_type := "bracket" } : Match)) := by
  unfold deAll0
  rw [hRdef, deWinners_split tid (2 ^ R) R hR2]
  have hd1 : ∀ a ∈ (List.range' 1 (2 ^ R / 2)).map (fun k =>
      ({ id := seOffset (2 ^ R) 1 + k, tournament_id := tid,
         round_number := 1, match_number := k,
         match_type := "bracket" } : Match)),
      ¬(a.round_number == 2 && a.match_type == "bracket") = true := by
    intro a ha
    rcases List.mem_map.mp ha with ⟨k, _, rfl⟩
    simp
  have hkeep : ∀ a ∈ (List.range' 1 (2 ^ R / 4)).map (fun k =>
      ({ id := seOffset (2 ^ R) 2 + k, tournament_id := tid,
         round_number := 2, match_number := k,
         match_type := "bracket" } : Match)),
      (a.round_number == 2 && a.match_type == "bracket") = true := by
    intro a ha
    rcases List.mem_map.mp ha with ⟨k, _, rfl⟩
    rfl
  have hd3 : ∀ a ∈ (List.range' 3 (R - 2)).flatMap (fun r =>
      (List.range' 1 (2 ^ R / 2 ^ r)).map (fun k =>
        ({ id := seOffset (2 ^ R) r + k, tournament_id := tid,
           round_number := r, match_number := k,
           match_type := "bracket" } : Match))),
      ¬(a.round_number == 2 && a.match_type == "bracket") = true := by
    intro a ha
    have h3 := (wtail_facts tid (2 ^ R) R a ha).1
    simp only [Bool.and_eq_true, beq_iff_eq]
    intro h
    omega
  have hdL : ∀ a ∈ (deLosersAcc tid (2 ^ R) R).1,
      ¬(a.round_number == 2 && a.match_type == "bracket") = true := by
    intro a ha
    have h101 := (deLosersAcc_facts tid (2 ^ R) R a ha).1
    simp only [Bool.and_eq_true, beq_iff_eq]
    intro h
    omega
  simp only [List.filter_append]
  rw [List.filter_eq_nil_iff.mpr hd1, List.filter_eq_self.mpr hkeep,
      List.filter_eq_nil_iff.mpr hd3, List.filter_eq_nil_iff.mpr hdL,
      List.filter_cons_of_neg (by simp), List.filter_nil]
  simp

theorem deAll0_fr_ids (tid : Nat) (teams : List Nat) (R : Nat)
    (hRdef : ceilLog2 teams.length = R) (hR2 : 2 ≤ R) :
    ∀ j, ((((deAll0 tid teams).filter
        (fun m => m.round_number == 1))).get? j).map (fun m => m.id) =
      if j < 2 ^ R / 2 then some (j + 1) else none := by
  intro j
  rw [deAll0_filter1 tid teams R hRdef hR2, block_get?]
  by_cases h : j < 2 ^ R / 2
  · rw [if_pos h, if_pos h]
    show some (seOffset (2 ^ R) 1 + (1 + j)) = some (j + 1)
    rw [seOffset_one]
    congr 1
    omega
  · rw [if_neg h, if_neg h]
    rfl

theorem deFilled_eq (tid : Nat) (teams : List Nat) (R : Nat)
    (hRdef : ceilLog2 teams.length = R) (hR2 : 2 ≤ R) :
    deFilled tid teams = (deAll0 tid teams).map
      (fillView (2 ^ R / 2) 0 (teams.drop (2 ^ R - teams.length))) := by
  unfold deFilled
  rw [hRdef]
  exact deFill_eq_map _ _ (deAll0_fr_ids tid teams R hRdef hR2) _ 0 _

theorem deFilled_sr_ids (tid : Nat) (teams : List Nat) (R : Nat)
    (hRdef : ceilLog2 teams.length = R) (hR2 : 2 ≤ R)
    (hhalf : 2 ^ R - 2 ^ R / 2 = 2 ^ R / 2) :
    ∀ j, (((deFilled tid teams).filter
        (fun m => m.round_number == 2 && m.match_type == "bracket")).get? j).map
        (fun m => m.id) =
      if j < 2 ^ R / 4 then some (2 ^ R / 2 + j + 1) else none := by
  intro j
  rw [deFilled_eq tid teams R hRdef hR2, List.filter_map]
  have hcomp : ((fun m => m.round_number == 2 && m.match_type == "bracket") ∘
      fillView (2 ^ R / 2) 0 (teams.drop (2 ^ R - teams.length))) =
      (fun m => m.round_number == 2 && m.match_type == "bracket") := by
    funext x
    rfl
  rw [hcomp, deAll0_filter2 tid teams R hRdef hR2, List.get?_map, block_get?]
  by_cases h : j < 2 ^ R / 4
  · rw [if_pos h, if_pos h]
    show some (seOffset (2 ^ R) 2 + (1 + j)) = some (2 ^ R / 2 + j + 1)
    rw [seOffset_two]
    congr 1
    omega
  · rw [if_neg h, if_neg h]
    rfl

theorem deAll0_slots (tid : Nat) (teams : List Nat) :
    ∀ y ∈ deAll0 tid teams, y.team1_id = none ∧ y.team2_id = none := by
  intro y hy
  unfold deAll0 at hy
  rcases List.mem_append.mp hy with hy1 | hygf
  · rcases List.mem_append.mp hy1 with hyw | hyL
    · have hw := deWinners_facts _ _ _ y hyw
      exact ⟨hw.1, hw.2.1⟩
    · have hl := deLosersAcc_facts _ _ _ y hyL
      exact ⟨hl.2.2.1, hl.2.2.2.1⟩
  · rw [List.mem_singleton] at hygf
    subst hygf
    exact ⟨rfl, rfl⟩

theorem deByesDone_eq (tid : Nat) (teams : List Nat) (R : Nat)
    (hRdef : ceilLog2 teams.length = R) (hR2 : 2 ≤ R)
    (hhalf : 2 ^ R - 2 ^ R / 2 = 2 ^ R / 2) :
    deByesDone tid teams = (deFilled tid teams).map
      (byeView (2 ^ R / 2) (2 ^ R / 4) 0
        (teams.take (2 ^ R - teams.length))) := by
  unfold deByesDone
  rw [hRdef]
  refine deByes_eq_map _ _ _ (deFilled_sr_ids tid teams R hRdef hR2 hhalf) _ 0 _ ?_
  intro x hx h1 h2
  rw [deFilled_eq tid teams R hRdef hR2] at hx
  rcases List.mem_map.mp hx with ⟨y, hy, rfl⟩
  dsimp only [fillView] at h1 h2 ⊢
  rw [if_neg (by omega)]
  exact (deAll0_slots tid teams y hy).1

theorem seedSpec_if_updCurrent (pts bts : List Nat) (b : Bool) (z : Match)
    (h : seedSpec pts bts z) :
    seedSpec pts bts (if b = true then updCurrent z else z) := by
  cases b
  · simpa using h
  · rw [if_pos rfl]
    unfold seedSpec at h ⊢
    unfold updCurrent
    dsimp only
    exact h

theorem deSeed_fields (tid : Nat) (teams : List Nat) (R : Nat)
    (hRdef : ceilLog2 teams.length = R) (hR2 : 2 ≤ R)
    (hhalf : 2 ^ R - 2 ^ R / 2 = 2 ^ R / 2) :
    ∀ y ∈ deAll0 tid teams,
      seedSpec (teams.drop (2 ^ R - teams.length))
        (teams.take (2 ^ R - teams.length))
        (byeView (2 ^ R / 2) (2 ^ R / 4) 0 (teams.take (2 ^ R - teams.length))
          (fillView (2 ^ R / 2) 0 (teams.drop (2 ^ R - teams.length)) y)) := by
  intro y hy
  unfold deAll0 at hy
  rw [hRdef, deWinners_split tid (2 ^ R) R hR2] at hy
  simp only [List.mem_append, List.mem_singleton] at hy
  rcases hy with ((hb1 | hb2 | hb3) | hbL) | hgf
  · -- winners round 1
    rcases List.mem_map.mp hb1 with ⟨k, hk, rfl⟩
    rw [List.mem_range'_1] at hk
    unfold seedSpec
    constructor
    · intro _
      constructor
      · dsimp only [byeView, fillView]
        rw [seOffset_one]
        rw [if_neg (by omega)]
        by_cases hin : 2 * (k - 1) < (teams.drop (2 ^ R - teams.length)).length
        · rw [if_pos (by omega)]
          congr 1
          omega
        · rw [if_neg (by omega)]
          exact (List.get?_eq_none.mpr (by omega)).symm
      · dsimp only [byeView, fillView]
        rw [seOffset_one]
        by_cases hin : 2 * (k - 1) + 1 < (teams.drop (2 ^ R - teams.length)).length
        · rw [if_pos (by omega)]
          congr 1
          omega
        · rw [if_neg (by omega)]
          exact (List.get?_eq_none.mpr (by omega)).symm
    · intro h2
      exfalso
      dsimp only [byeView, fillView] at h2
      omega
  · -- winners round 2
    rcases List.mem_map.mp hb2 with ⟨k, hk, rfl⟩
    rw [List.mem_range'_1] at hk
    unfold seedSpec
    constructor
    · intro h1
      exfalso
      dsimp only [byeView, fillView] at h1
      omega
    · intro _ _
      dsimp only [byeView, fillView]
      rw [seOffset_two]
      by_cases hin : k - 1 < (teams.take (2 ^ R - teams.length)).length
      · rw [if_pos (by omega)]
        congr 1
        omega
      · rw [if_neg (by omega), if_neg (by omega)]
        exact (List.get?_eq_none.mpr (by omega)).symm
  · -- winners rounds ≥ 3
    have hf := wtail_facts tid (2 ^ R) R y hb3
    unfold seedSpec
    constructor
    · intro h1
      exfalso
      dsimp only [byeView, fillView] at h1
      omega
    · intro h2 _
      exfalso
      dsimp only [byeView, fillView] at h2
      omega
  · -- losers bracket
    have hf := deLosersAcc_facts tid (2 ^ R) R y hbL
    unfold seedSpec
    constructor
    · intro h1
      exfalso
      dsimp only [byeView, fillView] at h1
      omega
    · intro h2 _
      exfalso
      dsimp only [byeView, fillView] at h2
      omega
  · -- grand finals
    subst hgf
    unfold seedSpec
    constructor
    · intro h1
      exfalso
      dsimp only [byeView, fillView] at h1
      omega
    · intro h2 _
      exfalso
      dsimp only [byeView, fillView] at h2
      omega

/-- C5 (amended): in double-elimination generation with at least 3 competitors
(writing `byes = 2^ceil(log2 n) - n`), the bye competitors are taken from the
HEAD of the shuffled list (`team_ids[:num_byes]`), not its tail: every
winners round-1 match (numbered `k`) holds the dropped-head tail of the
shuffled list in consecutive pairs (`team1 = tail[2*(k-1)]`,
`team2 = tail[2*(k-1)+1]`, `none` past the end), and every winners round-2
match (numbered `k`) holds head competitor `k-1` in its `team1` slot while it
exists (`none` past the end — byes beyond the round-2 match count are
silently dropped). -/
theorem C5_de_seeding (tid : Nat) (teams : List Nat) (h3 : 3 ≤ teams.length) :
    ∀ m ∈ create_double_elimination_bracket tid teams,
      seedSpec (teams.drop (2 ^ ceilLog2 teams.length - teams.length))
        (teams.take (2 ^ ceilLog2 teams.length - teams.length)) m := by
  intro m hm
  obtain ⟨R, hRdef⟩ : ∃ r, ceilLog2 teams.length = r := ⟨_, rfl⟩
  have hR2 : 2 ≤ R := hRdef ▸ two_le_ceilLog2 h3
  have e1 : (2 : Nat) ^ R = 4 * 2 ^ (R - 2) := by
    conv_lhs => rw [(by omega : R = R - 2 + 2)]
    rw [pow_add]
    ring
  have hhalf : 2 ^ R - 2 ^ R / 2 = 2 ^ R / 2 := by omega
  rw [hRdef]
  rw [de_unfold tid teams (by omega)] at hm
  have hBD : deByesDone tid teams = (deAll0 tid teams).map
      (fun y => byeView (2 ^ R / 2) (2 ^ R / 4) 0
        (teams.take (2 ^ R - teams.length))
        (fillView (2 ^ R / 2) 0 (teams.drop (2 ^ R - teams.length)) y)) := by
    rw [deByesDone_eq tid teams R hRdef hR2 hhalf,
        deFilled_eq tid teams R hRdef hR2, List.map_map]
    rfl
  cases hfind : ((deByesDone tid teams).filter
      (fun m => m.round_number == 1)).find?
      (fun m => truthy m.team1_id && truthy m.team2_id) with
  | none =>
    rw [hfind] at hm
    change m ∈ deByesDone tid teams at hm
    rw [hBD] at hm
    rcases List.mem_map.mp hm with ⟨y, hy, rfl⟩
    exact deSeed_fields tid teams R hRdef hR2 hhalf y hy
  | some c =>
    rw [hfind] at hm
    change m ∈ setM (deByesDone tid teams) c.id updCurrent at hm
    rw [hBD] at hm
    unfold setM at hm
    rw [List.map_map] at hm
    rcases List.mem_map.mp hm with ⟨y, hy, rfl⟩
    have hz := deSeed_fields tid teams R hRdef hR2 hhalf y hy
    simp only [Function.comp_apply]
    exact seedSpec_if_updCurrent _ _ _ _ hz

/-- C5 witness: the amended seeding theorem evaluated for 5 competitors
(3 byes: head teams 1, 2 fill the two round-2 `team1` slots, bye team 3 is
dropped; tail teams 4, 5 fill round-1 match 1). -/
theorem C5_de_seeding_witness :
    3 ≤ ([1, 2, 3, 4, 5] : List Nat).length ∧
    (∀ m ∈ create_double_elimination_bracket 7 [1, 2, 3, 4, 5],
      seedSpec (([1, 2, 3, 4, 5] : List Nat).drop
          (2 ^ ceilLog2 ([1, 2, 3, 4, 5] : List Nat).length -
            ([1, 2, 3, 4, 5] : List Nat).length))
        (([1, 2, 3, 4, 5] : List Nat).take
          (2 ^ ceilLog2 ([1, 2, 3, 4, 5] : List Nat).length -
            ([1, 2, 3, 4, 5] : List Nat).length)) m) :=
  ⟨by decide, C5_de_seeding 7 [1, 2, 3, 4, 5] (by decide)⟩

theorem se_unfold (tid : Nat) (teams : List Nat) (h2 : ¬teams.length < 2) :
    create_single_elimination_bracket tid teams =
      match (seAfterByes tid teams).find?
          (fun m => !m.is_completed && truthy m.team1_id && truthy m.team2_id) with
      | none => seAfterByes tid teams
      | some c => setM (seAfterByes tid teams) c.id updCurrent := by
  rw [create_single_elimination_bracket, if_neg h2]
  rfl

theorem getM_isSome_ids (s : DB) (i : Nat) :
    (getM s i).isSome = true ↔ i ∈ s.map (fun m => m.id) := by
  unfold getM
  rw [List.find?_isSome]
  constructor
  · rintro ⟨x, hx, hbeq⟩
    exact List.mem_map.mpr ⟨x, hx, by simpa using hbeq⟩
  · intro hmem
    rcases List.mem_map.mp hmem with ⟨x, hx, hxi⟩
    exact ⟨x, hx, by simp [hxi]⟩

theorem seRow1_eval (tid : Nat) (teams : List Nat) (k : Nat) :
    (fun m =>
      if m.round_number == 1 then
        { m with
            team1_id := ((sePadded teams).get? (2 * (m.match_number - 1))).getD none,
            team2_id := ((sePadded teams).get? (2 * (m.match_number - 1) + 1)).getD none }
      else m)
    ((fun m =>
      if m.round_number < ceilLog2 teams.length &&
          (m.match_number - 1) / 2 <
            2 ^ ceilLog2 teams.length / 2 ^ (m.round_number + 1) then
        { m with next_match_id := some (seOffset (2 ^ ceilLog2 teams.length)
            (m.round_number + 1) + (m.match_number - 1) / 2 + 1) }
      else m)
    ({ id := seOffset (2 ^ ceilLog2 teams.length) 1 + k, tournament_id := tid,
       round_number := 1, match_number := k,
       match_type := "bracket" } : Match)) = seRow1 tid teams k := by
  by_cases hc : (decide (1 < ceilLog2 teams.length) &&
      decide ((k - 1) / 2 < 2 ^ ceilLog2 teams.length / 2 ^ (1 + 1))) = true
  · dsimp only
    rw [if_pos hc]
    dsimp only
    rw [if_pos (show ((1 : Nat) == 1) = true from rfl)]
    unfold seRow1
    rw [if_pos hc]
  · dsimp only
    rw [if_neg hc]
    dsimp only
    rw [if_pos (show ((1 : Nat) == 1) = true from rfl)]
    unfold seRow1
    rw [if_neg hc]

theorem seFold_eq (g : Nat → Match) (n K : Nat) (w0 : Option Nat)
    (nxt : Option Nat)
    (hgid : ∀ k, (g k).id = k)
    (hgmn : ∀ k, (g k).match_number = k)
    (hnxtK : ∀ nid, nxt = some nid → K < nid)
    (hboth : ∀ k, 1 ≤ k → k ≤ K → 2 * (k - 1) + 1 < n →
      truthy (g k).team1_id = true ∧ truthy (g k).team2_id = true)
    (hbye : ∀ k, 1 ≤ k → k ≤ K → 2 * (k - 1) + 1 = n →
      truthy (g k).team1_id = true ∧ truthy (g k).team2_id = false ∧
      (g k).team1_id = w0 ∧ (g k).next_match_id = nxt)
    (hempty : ∀ k, 1 ≤ k → k ≤ K → n ≤ 2 * (k - 1) →
      truthy (g k).team1_id = false ∧ truthy (g k).team2_id = false) :
    ∀ (cnt j : Nat) (st : DB), 1 ≤ j → j + cnt ≤ K + 1 →
      (∀ nid, nxt = some nid → (getM st nid).isSome = true) →
      ((List.range' j cnt).map g).foldl byeStep st =
        st.map (seProgressSeg j cnt n K w0 nxt) := by
  intro cnt
  induction cnt with
  | zero =>
    intro j st hj hK hsome
    show st = st.map (seProgressSeg j 0 n K w0 nxt)
    have hident : ∀ x, seProgressSeg j 0 n K w0 nxt x = x := by
      intro x
      unfold seProgressSeg
      rw [if_neg (by omega), if_neg (by rintro ⟨-, -, h1, h2⟩; omega)]
    rw [show st.map (seProgressSeg j 0 n K w0 nxt) = st.map (fun x => x) from
        List.map_congr_left (fun x _ => hident x), List.map_id']
  | succ c ih =>
    intro j st hj hK hsome
    rw [List.range'_succ, List.map_cons, List.foldl_cons]
    by_cases hA : 2 * (j - 1) + 1 < n
    · -- both slots populated: the iteration is a no-op
      obtain ⟨hA1, hA2⟩ := hboth j hj (by omega) hA
      have hstep : byeStep st (g j) = st := by
        unfold byeStep
        rw [hA1, hA2]
        simp
      rw [hstep, ih (j + 1) st (by omega) (by omega) hsome]
      apply List.map_congr_left
      intro x _
      unfold seProgressSeg
      by_cases hx1 : 1 ≤ x.id ∧ x.id ≤ K ∧ j + 1 ≤ x.id ∧ x.id < j + 1 + c
      · rw [if_pos hx1, if_pos (show 1 ≤ x.id ∧ x.id ≤ K ∧ j ≤ x.id ∧ x.id < j + (c + 1) from by omega)]
      · rw [if_neg hx1]
        by_cases hx2 : 1 ≤ x.id ∧ x.id ≤ K ∧ j ≤ x.id ∧ x.id < j + (c + 1)
        · rw [if_pos hx2]
          rw [if_neg (by rintro ⟨he, -⟩; have hb := hnxtK _ he; omega),
              if_neg (by omega), if_neg (by omega)]
        · rw [if_neg hx2]
          by_cases hs : nxt = some x.id
          · by_cases hw : n % 2 = 1 ∧ j + 1 ≤ (n + 1) / 2 ∧ (n + 1) / 2 < j + 1 + c
            · rw [if_pos (show nxt = some x.id ∧ n % 2 = 1 ∧ j + 1 ≤ (n + 1) / 2 ∧ (n + 1) / 2 < j + 1 + c from ⟨hs, hw.1, hw.2.1, hw.2.2⟩),
                  if_pos (show nxt = some x.id ∧ n % 2 = 1 ∧ j ≤ (n + 1) / 2 ∧ (n + 1) / 2 < j + (c + 1) from ⟨hs, hw.1, by omega, by omega⟩)]
            · rw [if_neg (by rintro ⟨-, h1, h2, h3⟩; exact hw ⟨h1, h2, h3⟩),
                  if_neg (by rintro ⟨-, h1, h2, h3⟩; exact hw ⟨h1, by omega, by omega⟩)]
          · rw [if_neg (by rintro ⟨he, -⟩; exact hs he),
                if_neg (by rintro ⟨he, -⟩; exact hs he)]
    · by_cases hB : 2 * (j - 1) + 1 = n
      · -- the single-occupant bye match
        obtain ⟨hb1, hb2, hbw, hbn⟩ := hbye j hj (by omega) hB
        have hj0 : j = (n + 1) / 2 := by omega
        have hjK : j ≤ K := by omega
        cases hnx : nxt with
        | none =>
          subst hnx
          have hstep : byeStep st (g j) = setM st j (updByeWinner w0) := by
            unfold byeStep
            rw [hb1, hb2, hbn, hgid, hbw]
            simp
          rw [hstep, ih (j + 1) _ (by omega) (by omega)
            (by intro nid h; exact absurd h (by simp))]
          unfold setM
          rw [List.map_map]
          apply List.map_congr_left
          intro x _
          simp only [Function.comp_apply]
          unfold seProgressSeg
          by_cases hxj : (x.id == j) = true
          · have hxje : x.id = j := by simpa using hxj
            rw [if_pos hxj]
            rw [if_neg (show ¬(1 ≤ (updByeWinner w0 x).id ∧
                  (updByeWinner w0 x).id ≤ K ∧ j + 1 ≤ (updByeWinner w0 x).id ∧
                  (updByeWinner w0 x).id < j + 1 + c) from by
                dsimp only [updByeWinner]; omega),
              if_neg (show ¬((none : Option Nat) = some (updByeWinner w0 x).id ∧
                  n % 2 = 1 ∧ j + 1 ≤ (n + 1) / 2 ∧ (n + 1) / 2 < j + 1 + c) from by
                rintro ⟨he, -⟩; exact Option.noConfusion he),
              if_pos (show 1 ≤ x.id ∧ x.id ≤ K ∧ j ≤ x.id ∧
                  x.id < j + (c + 1) from by omega),
              if_neg (show ¬(n ≤ 2 * (x.id - 1)) from by omega),
              if_pos (show 2 * (x.id - 1) + 1 = n from by omega)]
          · have hxje : ¬(x.id = j) := by simpa using hxj
            rw [if_neg hxj]
            by_cases hx1 : 1 ≤ x.id ∧ x.id ≤ K ∧ j + 1 ≤ x.id ∧ x.id < j + 1 + c
            · rw [if_pos hx1, if_pos (show 1 ≤ x.id ∧ x.id ≤ K ∧ j ≤ x.id ∧
                  x.id < j + (c + 1) from by omega)]
            · rw [if_neg hx1,
                  if_neg (show ¬(1 ≤ x.id ∧ x.id ≤ K ∧ j ≤ x.id ∧
                    x.id < j + (c + 1)) from by omega),
                  if_neg (show ¬((none : Option Nat) = some x.id ∧ n % 2 = 1 ∧
                    j + 1 ≤ (n + 1) / 2 ∧ (n + 1) / 2 < j + 1 + c) from by
                    rintro ⟨he, -⟩; exact Option.noConfusion he),
                  if_neg (show ¬((none : Option Nat) = some x.id ∧ n % 2 = 1 ∧
                    j ≤ (n + 1) / 2 ∧ (n + 1) / 2 < j + (c + 1)) from by
                    rintro ⟨he, -⟩; exact Option.noConfusion he)]
        | some nid =>
          subst hnx
          have hKn : K < nid := hnxtK nid rfl
          have hsome1 : (getM (setM st j (updByeWinner w0)) nid).isSome = true := by
            rw [getM_isSome_ids, ids_setM st j (updByeWinner w0) (fun x => rfl),
                ← getM_isSome_ids]
            exact hsome nid rfl
          have hsome2 : ∀ nid2, some nid = some nid2 →
              (getM (setM (setM st j (updByeWinner w0)) nid
                (if (n + 1) / 2 % 2 = 1 then updSlot1 w0 else updSlot2 w0))
                nid2).isSome = true := by
            intro nid2 h
            injection h with h
            subst h
            rw [getM_isSome_ids,
              ids_setM (setM st j (updByeWinner w0)) nid
                (if (n + 1) / 2 % 2 = 1 then updSlot1 w0 else updSlot2 w0) (by
                  intro x
                  by_cases hp : (n + 1) / 2 % 2 = 1
                  · rw [if_pos hp]; rfl
                  · rw [if_neg hp]; rfl),
              ids_setM st j (updByeWinner w0) (fun x => rfl), ← getM_isSome_ids]
            exact hsome nid rfl
          have hstep : byeStep st (g j) =
              setM (setM st j (updByeWinner w0)) nid
                (if (n + 1) / 2 % 2 = 1 then updSlot1 w0 else updSlot2 w0) := by
            unfold byeStep
            rw [hb1, hb2, hbn, hgid, hgmn, hbw]
            simp only [Bool.not_false, Bool.and_self, if_true, hsome1]
            by_cases hp : (n + 1) / 2 % 2 = 1
            · rw [if_pos (show (j % 2 == 1) = true from by
                  simp only [beq_iff_eq]; omega),
                if_pos hp]
            · rw [if_neg (show ¬(j % 2 == 1) = true from by
                  simp only [beq_iff_eq]; omega),
                if_neg hp]
          rw [hstep, ih (j + 1) _ (by omega) (by omega) hsome2]
          unfold setM
          rw [List.map_map, List.map_map]
          apply List.map_congr_left
          intro x _
          simp only [Function.comp_apply]
          unfold seProgressSeg
          by_cases hxj : (x.id == j) = true
          · have hxje : x.id = j := by simpa using hxj
            rw [if_pos hxj,
                if_neg (show ¬((updByeWinner w0 x).id == nid) = true from by
                  dsimp only [updByeWinner]
                  simp only [beq_iff_eq]
                  omega),
                if_neg (show ¬(1 ≤ (updByeWinner w0 x).id ∧
                  (updByeWinner w0 x).id ≤ K ∧ j + 1 ≤ (updByeWinner w0 x).id ∧
                  (updByeWinner w0 x).id < j + 1 + c) from by
                  dsimp only [updByeWinner]; omega),
                if_neg (show ¬(some nid = some (updByeWinner w0 x).id ∧
                  n % 2 = 1 ∧ j + 1 ≤ (n + 1) / 2 ∧ (n + 1) / 2 < j + 1 + c) from by
                  dsimp only [updByeWinner]
                  rintro ⟨he, -⟩
                  injection he with he
                  omega),
                if_pos (show 1 ≤ x.id ∧ x.id ≤ K ∧ j ≤ x.id ∧
                  x.id < j + (c + 1) from by omega),
                if_neg (show ¬(n ≤ 2 * (x.id - 1)) from by omega),
                if_pos (show 2 * (x.id - 1) + 1 = n from by omega)]
          · have hxje : ¬(x.id = j) := by simpa using hxj
            rw [if_neg hxj]
            by_cases hxn : (x.id == nid) = true
            · have hxne : x.id = nid := by simpa using hxn
              rw [if_pos hxn]
              by_cases hp : (n + 1) / 2 % 2 = 1
              · rw [if_pos hp,
                    if_neg (show ¬(1 ≤ (updSlot1 w0 x).id ∧
                      (updSlot1 w0 x).id ≤ K ∧ j + 1 ≤ (updSlot1 w0 x).id ∧
                      (updSlot1 w0 x).id < j + 1 + c) from by
                      dsimp only [updSlot1]; omega),
                    if_neg (show ¬(some nid = some (updSlot1 w0 x).id ∧
                      n % 2 = 1 ∧ j + 1 ≤ (n + 1) / 2 ∧
                      (n + 1) / 2 < j + 1 + c) from by
                      rintro ⟨-, -, h2, -⟩; omega),
                    if_neg (show ¬(1 ≤ x.id ∧ x.id ≤ K ∧ j ≤ x.id ∧
                      x.id < j + (c + 1)) from by omega),
                    if_pos (show some nid = some x.id ∧ n % 2 = 1 ∧
                      j ≤ (n + 1) / 2 ∧ (n + 1) / 2 < j + (c + 1) from
                      ⟨by rw [hxne], by omega, by omega, by omega⟩),
                    if_pos hp]
              · rw [if_neg hp,
                    if_neg (show ¬(1 ≤ (updSlot2 w0 x).id ∧
                      (updSlot2 w0 x).id ≤ K ∧ j + 1 ≤ (updSlot2 w0 x).id ∧
                      (updSlot2 w0 x).id < j + 1 + c) from by
                      dsimp only [updSlot2]; omega),
                    if_neg (show ¬(some nid = some (updSlot2 w0 x).id ∧
                      n % 2 = 1 ∧ j + 1 ≤ (n + 1) / 2 ∧
                      (n + 1) / 2 < j + 1 + c) from by
                      rintro ⟨-, -, h2, -⟩; omega),
                    if_neg (show ¬(1 ≤ x.id ∧ x.id ≤ K ∧ j ≤ x.id ∧
                      x.id < j + (c + 1)) from by omega),
                    if_pos (show some nid = some x.id ∧ n % 2 = 1 ∧
                      j ≤ (n + 1) / 2 ∧ (n + 1) / 2 < j + (c + 1) from
                      ⟨by rw [hxne], by omega, by omega, by omega⟩),
                    if_neg hp]
            · have hxne : ¬(x.id = nid) := by simpa using hxn
              rw [if_neg hxn]
              by_cases hx1 : 1 ≤ x.id ∧ x.id ≤ K ∧ j + 1 ≤ x.id ∧ x.id < j + 1 + c
              · rw [if_pos hx1, if_pos (show 1 ≤ x.id ∧ x.id ≤ K ∧ j ≤ x.id ∧
                    x.id < j + (c + 1) from by omega)]
              · rw [if_neg hx1,
                    if_neg (show ¬(1 ≤ x.id ∧ x.id ≤ K ∧ j ≤ x.id ∧
                      x.id < j + (c + 1)) from by omega),
                    if_neg (show ¬(some nid = some x.id ∧ n % 2 = 1 ∧
                      j + 1 ≤ (n + 1) / 2 ∧ (n + 1) / 2 < j + 1 + c) from by
                      rintro ⟨he, -⟩
                      injection he with he
                      exact hxne he.symm),
                    if_neg (show ¬(some nid = some x.id ∧ n % 2 = 1 ∧
                      j ≤ (n + 1) / 2 ∧ (n + 1) / 2 < j + (c + 1)) from by
                      rintro ⟨he, -⟩
                      injection he with he
                      exact hxne he.symm)]
      · -- both slots empty: mark completed
        have hC : n ≤ 2 * (j - 1) := by omega
        obtain ⟨hc1, hc2⟩ := hempty j hj (by omega) hC
        have hstep : byeStep st (g j) = setM st j updCompleted := by
          unfold byeStep
          rw [hc1, hc2, hgid]
          simp
        have hsome3 : ∀ nid, nxt = some nid →
            (getM (setM st j updCompleted) nid).isSome = true := by
          intro nid h
          rw [getM_isSome_ids, ids_setM st j updCompleted (fun x => rfl),
            ← getM_isSome_ids]
          exact hsome nid h
        rw [hstep, ih (j + 1) _ (by omega) (by omega) hsome3]
        unfold setM
        rw [List.map_map]
        apply List.map_congr_left
        intro x _
        simp only [Function.comp_apply]
        unfold seProgressSeg
        by_cases hxj : (x.id == j) = true
        · have hxje : x.id = j := by simpa using hxj
          rw [if_pos hxj]
          rw [if_neg (by dsimp only [updCompleted]; omega),
              if_neg (by
                dsimp only [updCompleted]
                rintro ⟨he, -⟩
                have hb := hnxtK _ he
                omega),
              if_pos (by omega), if_pos (by omega)]
        · have hxje : ¬(x.id = j) := by simpa using hxj
          rw [if_neg hxj]
          by_cases hx1 : 1 ≤ x.id ∧ x.id ≤ K ∧ j + 1 ≤ x.id ∧ x.id < j + 1 + c
          · rw [if_pos hx1, if_pos (show 1 ≤ x.id ∧ x.id ≤ K ∧ j ≤ x.id ∧ x.id < j + (c + 1) from by omega)]
          · rw [if_neg hx1]
            by_cases hx2 : 1 ≤ x.id ∧ x.id ≤ K ∧ j ≤ x.id ∧ x.id < j + (c + 1)
            · exact absurd hx2 (by omega)
            · rw [if_neg hx2]
              by_cases hs : nxt = some x.id
              · by_cases hw : n % 2 = 1 ∧ j + 1 ≤ (n + 1) / 2 ∧ (n + 1) / 2 < j + 1 + c
                · rw [if_pos (show nxt = some x.id ∧ n % 2 = 1 ∧ j + 1 ≤ (n + 1) / 2 ∧ (n + 1) / 2 < j + 1 + c from ⟨hs, hw.1, hw.2.1, hw.2.2⟩),
                      if_pos (show nxt = some x.id ∧ n % 2 = 1 ∧ j ≤ (n + 1) / 2 ∧ (n + 1) / 2 < j + (c + 1) from ⟨hs, hw.1, by omega, by omega⟩)]
                · rw [if_neg (by rintro ⟨-, h1, h2, h3⟩; exact hw ⟨h1, h2, h3⟩),
                      if_neg (by rintro ⟨-, h1, h2, h3⟩; exact hw ⟨h1, by omega, by omega⟩)]
              · rw [if_neg (by rintro ⟨he, -⟩; exact hs he),
                    if_neg (by rintro ⟨he, -⟩; exact hs he)]

theorem deWinners_filter1 (tid B R : Nat) (hR2 : 2 ≤ R) :
    (deWinners tid B R).filter (fun m => m.round_number == 1) =
      (List.range' 1 (B / 2)).map (fun k =>
        ({ id := seOffset B 1 + k, tournament_id := tid,
           round_number := 1, match_number := k,
           match_type := "bracket" } : Match)) := by
  rw [deWinners_split tid B R hR2]
  have hkeep : ∀ a ∈ (List.range' 1 (B / 2)).map (fun k =>
      ({ id := seOffset B 1 + k, tournament_id := tid,
         round_number := 1, match_number := k,
         match_type := "bracket" } : Match)), (a.round_number == 1) = true := by
    intro a ha
    rcases List.mem_map.mp ha with ⟨k, _, rfl⟩
    rfl
  have hd2 : ∀ a ∈ (List.range' 1 (B / 4)).map (fun k =>
      ({ id := seOffset B 2 + k, tournament_id := tid,
         round_number := 2, match_number := k,
         match_type := "bracket" } : Match)), ¬(a.round_number == 1) = true := by
    intro a ha
    rcases List.mem_map.mp ha with ⟨k, _, rfl⟩
    simp
  have hd3 : ∀ a ∈ (List.range' 3 (R - 2)).flatMap (fun r =>
      (List.range' 1 (B / 2 ^ r)).map (fun k =>
        ({ id := seOffset B r + k, tournament_id := tid,
           round_number := r, match_number := k,
           match_type := "bracket" } : Match))), ¬(a.round_number == 1) = true := by
    intro a ha
    have h3 := (wtail_facts tid B R a ha).1
    simp only [beq_iff_eq]
    omega
  simp only [List.filter_append]
  rw [List.filter_eq_self.mpr hkeep, List.filter_eq_nil_iff.mpr hd2,
      List.filter_eq_nil_iff.mpr hd3]
  simp

theorem seFR_eq (tid : Nat) (teams : List Nat) (R : Nat)
    (hRdef : ceilLog2 teams.length = R) (hR2 : 2 ≤ R) :
    seFR tid teams = (List.range' 1 (2 ^ R / 2)).map (seRow1 tid teams) := by
  subst hRdef
  unfold seFR seAssigned seLinked
  rw [List.filter_map]
  have hcA : ((fun m => m.round_number == 1) ∘ (fun (m : Match) =>
      if m.round_number == 1 then
        { m with
            team1_id := ((sePadded teams).get? (2 * (m.match_number - 1))).getD none,
            team2_id := ((sePadded teams).get? (2 * (m.match_number - 1) + 1)).getD none }
      else m)) = (fun m => m.round_number == 1) := by
    funext x
    simp only [Function.comp_apply]
    by_cases h : (x.round_number == 1) = true
    · rw [if_pos h]
    · rw [if_neg h]
  rw [hcA, List.filter_map]
  have hcL : ((fun m => m.round_number == 1) ∘ (fun (m : Match) =>
      if m.round_number < ceilLog2 teams.length &&
          (m.match_number - 1) / 2 <
            2 ^ ceilLog2 teams.length / 2 ^ (m.round_number + 1) then
        { m with next_match_id := some (seOffset (2 ^ ceilLog2 teams.length)
            (m.round_number + 1) + (m.match_number - 1) / 2 + 1) }
      else m)) = (fun m => m.round_number == 1) := by
    funext x
    simp only [Function.comp_apply]
    by_cases h : (decide (x.round_number < ceilLog2 teams.length) &&
        decide ((x.match_number - 1) / 2 <
          2 ^ ceilLog2 teams.length / 2 ^ (x.round_number + 1))) = true
    · rw [if_pos h]
    · rw [if_neg h]
  rw [hcL, deWinners_filter1 tid (2 ^ ceilLog2 teams.length)
    (ceilLog2 teams.length) hR2]
  have hmr : ((((List.range' 1 (2 ^ ceilLog2 teams.length / 2)).map (fun k =>
      ({ id := seOffset (2 ^ ceilLog2 teams.length) 1 + k, tournament_id := tid,
         round_number := 1, match_number := k,
         match_type := "bracket" } : Match))).map (fun (m : Match) =>
      if m.round_number < ceilLog2 teams.length &&
          (m.match_number - 1) / 2 <
            2 ^ ceilLog2 teams.length / 2 ^ (m.round_number + 1) then
        { m with next_match_id := some (seOffset (2 ^ ceilLog2 teams.length)
            (m.round_number + 1) + (m.match_number - 1) / 2 + 1) }
      else m)).map (fun (m : Match) =>
      if m.round_number == 1 then
        { m with
            team1_id := ((sePadded teams).get? (2 * (m.match_number - 1))).getD none,
            team2_id := ((sePadded teams).get? (2 * (m.match_number - 1) + 1)).getD none }
      else m)) =
      (List.range' 1 (2 ^ ceilLog2 teams.length / 2)).map (seRow1 tid teams) := by
    rw [List.map_map, List.map_map]
    apply List.map_congr_left
    intro k _
    exact seRow1_eval tid teams k
  rw [hmr]
  have hsort : List.Sorted mnLe ((List.range' 1
      (2 ^ ceilLog2 teams.length / 2)).map (seRow1 tid teams)) := by
    refine List.Pairwise.map (seRow1 tid teams) ?_
      (List.pairwise_lt_range' 1 (2 ^ ceilLog2 teams.length / 2) 1)
    intro a b hab
    show (seRow1 tid teams a).match_number ≤ (seRow1 tid teams b).match_number
    dsimp only [seRow1]
    omega
  rw [List.Sorted.insertionSort_eq hsort]

theorem sePadded_get_lt (teams : List Nat) (j : Nat) (hj : j < teams.length) :
    ((sePadded teams).get? j).getD none = teams.get? j := by
  unfold sePadded
  rw [List.get?_eq_getElem?, List.getElem?_append,
      if_pos (by simp only [List.length_map]; omega), List.getElem?_map]
  cases ht : teams[j]? with
  | none =>
    exfalso
    have hlen : teams.length ≤ j := List.getElem?_eq_none_iff.mp ht
    omega
  | some t =>
    rw [List.get?_eq_getElem?, ht]
    rfl

theorem sePadded_get_ge (teams : List Nat) (j : Nat) (hj : teams.length ≤ j) :
    ((sePadded teams).get? j).getD none = none := by
  unfold sePadded
  rw [List.get?_eq_getElem?, List.getElem?_append,
      if_neg (by simp only [List.length_map]; omega), List.getElem?_replicate]
  by_cases h : j - (teams.map some).length <
      2 ^ ceilLog2 teams.length - teams.length
  · rw [if_pos h]
    rfl
  · rw [if_neg h]
    rfl

theorem sePadded_truthy_lt (teams : List Nat) (hpos : ∀ t ∈ teams, 0 < t)
    (j : Nat) (hj : j < teams.length) :
    truthy (((sePadded teams).get? j).getD none) = true := by
  rw [sePadded_get_lt teams j hj]
  cases ht : teams.get? j with
  | none =>
    exfalso
    rw [List.get?_eq_none] at ht
    omega
  | some t =>
    have hmem : t ∈ teams := List.get?_mem ht
    have hpt := hpos t hmem
    show (t != 0) = true
    simp only [bne_iff_ne, ne_eq]
    omega

theorem sePadded_truthy_ge (teams : List Nat) (j : Nat)
    (hj : teams.length ≤ j) :
    truthy (((sePadded teams).get? j).getD none) = false := by
  rw [sePadded_get_ge teams j hj]
  rfl

theorem seRow1_id (tid : Nat) (teams : List Nat) (k : Nat) :
    (seRow1 tid teams k).id = k := by
  show seOffset (2 ^ ceilLog2 teams.length) 1 + k = k
  rw [seOffset_one]
  omega

theorem seAssigned_proj (tid : Nat) (teams : List Nat) :
    ∀ w : Match,
      (((fun (m : Match) =>
        if m.round_number == 1 then
          { m with
              team1_id := ((sePadded teams).get? (2 * (m.match_number - 1))).getD none,
              team2_id := ((sePadded teams).get? (2 * (m.match_number - 1) + 1)).getD none }
        else m)
      ((fun (m : Match) =>
        if m.round_number < ceilLog2 teams.length &&
            (m.match_number - 1) / 2 <
              2 ^ ceilLog2 teams.length / 2 ^ (m.round_number + 1) then
          { m with next_match_id := some (seOffset (2 ^ ceilLog2 teams.length)
              (m.round_number + 1) + (m.match_number - 1) / 2 + 1) }
        else m) w)).round_number = w.round_number) ∧
      (((fun (m : Match) =>
        if m.round_number == 1 then
          { m with
              team1_id := ((sePadded teams).get? (2 * (m.match_number - 1))).getD none,
              team2_id := ((sePadded teams).get? (2 * (m.match_number - 1) + 1)).getD none }
        else m)
      ((fun (m : Match) =>
        if m.round_number < ceilLog2 teams.length &&
            (m.match_number - 1) / 2 <
              2 ^ ceilLog2 teams.length / 2 ^ (m.round_number + 1) then
          { m with next_match_id := some (seOffset (2 ^ ceilLog2 teams.length)
              (m.round_number + 1) + (m.match_number - 1) / 2 + 1) }
        else m) w)).id = w.id) := by
  intro w
  dsimp only
  by_cases hl : (decide (w.round_number < ceilLog2 teams.length) &&
      decide ((w.match_number - 1) / 2 <
        2 ^ ceilLog2 teams.length / 2 ^ (w.round_number + 1))) = true
  · rw [if_pos hl]
    by_cases ha : (w.round_number == 1) = true
    · rw [if_pos ha]
      exact ⟨rfl, rfl⟩
    · rw [if_neg ha]
      exact ⟨rfl, rfl⟩
  · rw [if_neg hl]
    by_cases ha : (w.round_number == 1) = true
    · rw [if_pos ha]
      exact ⟨rfl, rfl⟩
    · rw [if_neg ha]
      exact ⟨rfl, rfl⟩

theorem seAssigned_round1 (tid : Nat) (teams : List Nat) (R : Nat)
    (hRdef : ceilLog2 teams.length = R) (hR2 : 2 ≤ R) :
    ∀ y ∈ seAssigned tid teams, y.round_number = 1 →
      ∃ k, 1 ≤ k ∧ k ≤ 2 ^ R / 2 ∧ y = seRow1 tid teams k := by
  subst hRdef
  intro y hy h1
  unfold seAssigned seLinked at hy
  rcases List.mem_map.mp hy with ⟨z, hz, rfl⟩
  rcases List.mem_map.mp hz with ⟨w, hw, rfl⟩
  have hproj := seAssigned_proj tid teams w
  rw [hproj.1] at h1
  rw [deWinners_split tid (2 ^ ceilLog2 teams.length)
    (ceilLog2 teams.length) hR2] at hw
  simp only [List.mem_append] at hw
  rcases hw with hb1 | hb2 | hb3
  · rcases List.mem_map.mp hb1 with ⟨k, hk, rfl⟩
    rw [List.mem_range'_1] at hk
    exact ⟨k, hk.1, by omega, seRow1_eval tid teams k⟩
  · rcases List.mem_map.mp hb2 with ⟨k, _, rfl⟩
    exact absurd h1 (by simp)
  · have h3 := (wtail_facts tid (2 ^ ceilLog2 teams.length)
      (ceilLog2 teams.length) w hb3).1
    omega

theorem seAssigned_ids (tid : Nat) (teams : List Nat) :
    (seAssigned tid teams).map (fun m => m.id) =
      (deWinners tid (2 ^ ceilLog2 teams.length)
        (ceilLog2 teams.length)).map (fun m => m.id) := by
  unfold seAssigned seLinked
  rw [List.map_map, List.map_map]
  apply List.map_congr_left
  intro w _
  exact (seAssigned_proj tid teams w).2

theorem seAfterByes_eq (tid : Nat) (teams : List Nat)
    (h3 : 3 ≤ teams.length) (hpos : ∀ t ∈ teams, 0 < t) :
    seAfterByes tid teams = (seAssigned tid teams).map
      (seProgressSeg 1 (2 ^ ceilLog2 teams.length / 2) teams.length
        (2 ^ ceilLog2 teams.length / 2)
        (((sePadded teams).get? (teams.length - 1)).getD none)
        ((seRow1 tid teams ((teams.length + 1) / 2)).next_match_id)) := by
  have hR2 : 2 ≤ ceilLog2 teams.length := two_le_ceilLog2 h3
  have hnB : teams.length ≤ 2 ^ ceilLog2 teams.length :=
    le_pow_ceilLog2 teams.length
  have e1 : (2 : Nat) ^ ceilLog2 teams.length =
      4 * 2 ^ (ceilLog2 teams.length - 2) := by
    conv_lhs => rw [(by omega : ceilLog2 teams.length =
      ceilLog2 teams.length - 2 + 2)]
    rw [pow_add]
    ring
  have hso : seOffset (2 ^ ceilLog2 teams.length) (1 + 1) =
      2 ^ ceilLog2 teams.length - 2 ^ ceilLog2 teams.length / 2 := by
    unfold seOffset
    norm_num
  have hb4 : 2 ^ ceilLog2 teams.length / 2 ^ (1 + 1) =
      2 ^ (ceilLog2 teams.length - 2) := by
    rw [(by norm_num : (2 : Nat) ^ (1 + 1) = 4), e1]
    omega
  unfold seAfterByes
  rw [seFR_eq tid teams (ceilLog2 teams.length) rfl hR2]
  refine seFold_eq (seRow1 tid teams) teams.length
    (2 ^ ceilLog2 teams.length / 2) _ _
    (seRow1_id tid teams) (fun k => rfl) ?_ ?_ ?_ ?_
    (2 ^ ceilLog2 teams.length / 2) 1 (seAssigned tid teams)
    (by omega) (by omega) ?_
  · -- any successor link of the bye row exceeds the round-1 id range
    intro nid h
    dsimp only [seRow1] at h
    by_cases hc : (decide (1 < ceilLog2 teams.length) &&
        decide (((teams.length + 1) / 2 - 1) / 2 <
          2 ^ ceilLog2 teams.length / 2 ^ (1 + 1))) = true
    · rw [if_pos hc] at h
      injection h with h
      subst h
      rw [hso]
      omega
    · rw [if_neg hc] at h
      exact Option.noConfusion h
  · -- fully populated rows
    intro k hk1 hkK hlt
    constructor
    · show truthy (((sePadded teams).get? (2 * (k - 1))).getD none) = true
      exact sePadded_truthy_lt teams hpos _ (by omega)
    · show truthy (((sePadded teams).get? (2 * (k - 1) + 1)).getD none) = true
      exact sePadded_truthy_lt teams hpos _ (by omega)
  · -- the single-occupant bye row
    intro k hk1 hkK heq
    have hk0 : k = (teams.length + 1) / 2 := by omega
    subst hk0
    refine ⟨?_, ?_, ?_, rfl⟩
    · show truthy (((sePadded teams).get?
        (2 * ((teams.length + 1) / 2 - 1))).getD none) = true
      rw [(by omega : 2 * ((teams.length + 1) / 2 - 1) = teams.length - 1)]
      exact sePadded_truthy_lt teams hpos _ (by omega)
    · show truthy (((sePadded teams).get?
        (2 * ((teams.length + 1) / 2 - 1) + 1)).getD none) = false
      exact sePadded_truthy_ge teams _ (by omega)
    · show ((sePadded teams).get?
          (2 * ((teams.length + 1) / 2 - 1))).getD none =
        ((sePadded teams).get? (teams.length - 1)).getD none
      rw [(by omega : 2 * ((teams.length + 1) / 2 - 1) = teams.length - 1)]
  · -- fully empty rows
    intro k hk1 hkK hge
    constructor
    · show truthy (((sePadded teams).get? (2 * (k - 1))).getD none) = false
      exact sePadded_truthy_ge teams _ (by omega)
    · show truthy (((sePadded teams).get? (2 * (k - 1) + 1)).getD none) = false
      exact sePadded_truthy_ge teams _ (by omega)
  · -- the successor row exists in the assigned table
    intro nid h
    dsimp only [seRow1] at h
    by_cases hc : (decide (1 < ceilLog2 teams.length) &&
        decide (((teams.length + 1) / 2 - 1) / 2 <
          2 ^ ceilLog2 teams.length / 2 ^ (1 + 1))) = true
    · rw [if_pos hc] at h
      injection h with h
      subst h
      simp only [Bool.and_eq_true, decide_eq_true_eq] at hc
      rw [getM_isSome_ids, seAssigned_ids tid teams]
      apply List.mem_map.mpr
      refine ⟨{ id := seOffset (2 ^ ceilLog2 teams.length) 2 + (((teams.length + 1) / 2 - 1) / 2 + 1), tournament_id := tid, round_number := 2, match_number := ((teams.length + 1) / 2 - 1) / 2 + 1, match_type := "bracket" }, ?_, ?_⟩
      · rw [deWinners_split tid (2 ^ ceilLog2 teams.length)
          (ceilLog2 teams.length) hR2]
        simp only [List.mem_append]
        refine Or.inr (Or.inl (List.mem_map.mpr
          ⟨((teams.length + 1) / 2 - 1) / 2 + 1,
            List.mem_range'_1.mpr ⟨by omega, ?_⟩, rfl⟩))
        have hq := hc.2
        rw [hb4] at hq
        omega
      · show seOffset (2 ^ ceilLog2 teams.length) 2 +
            (((teams.length + 1) / 2 - 1) / 2 + 1) =
          seOffset (2 ^ ceilLog2 teams.length) (1 + 1) +
            ((teams.length + 1) / 2 - 1) / 2 + 1
        unfold seOffset
        norm_num
        omega
    · rw [if_neg hc] at h
      exact Option.noConfusion h

theorem seRow1_next_gt (tid : Nat) (teams : List Nat)
    (h3 : 3 ≤ teams.length) :
    ∀ nid, (seRow1 tid teams ((teams.length + 1) / 2)).next_match_id =
        some nid →
      2 ^ ceilLog2 teams.length / 2 < nid := by
  have e1 : (2 : Nat) ^ ceilLog2 teams.length =
      4 * 2 ^ (ceilLog2 teams.length - 2) := by
    have hR2 : 2 ≤ ceilLog2 teams.length := two_le_ceilLog2 h3
    conv_lhs => rw [(by omega : ceilLog2 teams.length =
      ceilLog2 teams.length - 2 + 2)]
    rw [pow_add]
    ring
  have hso : seOffset (2 ^ ceilLog2 teams.length) (1 + 1) =
      2 ^ ceilLog2 teams.length - 2 ^ ceilLog2 teams.length / 2 := by
    unfold seOffset
    norm_num
  intro nid h
  dsimp only [seRow1] at h
  by_cases hc : (decide (1 < ceilLog2 teams.length) &&
      decide (((teams.length + 1) / 2 - 1) / 2 <
        2 ^ ceilLog2 teams.length / 2 ^ (1 + 1))) = true
  · rw [if_pos hc] at h
    injection h with h
    subst h
    rw [hso]
    omega
  · rw [if_neg hc] at h
    exact Option.noConfusion h

theorem seProgressSeg_proj (j cnt n K : Nat) (w0 nxt : Option Nat)
    (hnxtK : ∀ nid, nxt = some nid → K < nid) (x : Match) :
    (seProgressSeg j cnt n K w0 nxt x).round_number = x.round_number ∧
    (seProgressSeg j cnt n K w0 nxt x).match_number = x.match_number ∧
    (seProgressSeg j cnt n K w0 nxt x).id = x.id ∧
    (seProgressSeg j cnt n K w0 nxt x).next_match_id = x.next_match_id ∧
    (x.id ≤ K →
      (seProgressSeg j cnt n K w0 nxt x).team1_id = x.team1_id ∧
      (seProgressSeg j cnt n K w0 nxt x).team2_id = x.team2_id) := by
  unfold seProgressSeg
  by_cases h1 : 1 ≤ x.id ∧ x.id ≤ K ∧ j ≤ x.id ∧ x.id < j + cnt
  · rw [if_pos h1]
    by_cases h2 : n ≤ 2 * (x.id - 1)
    · rw [if_pos h2]
      exact ⟨rfl, rfl, rfl, rfl, fun _ => ⟨rfl, rfl⟩⟩
    · rw [if_neg h2]
      by_cases h3 : 2 * (x.id - 1) + 1 = n
      · rw [if_pos h3]
        exact ⟨rfl, rfl, rfl, rfl, fun _ => ⟨rfl, rfl⟩⟩
      · rw [if_neg h3]
        exact ⟨rfl, rfl, rfl, rfl, fun _ => ⟨rfl, rfl⟩⟩
  · rw [if_neg h1]
    by_cases h2 : nxt = some x.id ∧ n % 2 = 1 ∧ j ≤ (n + 1) / 2 ∧
        (n + 1) / 2 < j + cnt
    · rw [if_pos h2]
      have hgt := hnxtK x.id h2.1
      by_cases h3 : (n + 1) / 2 % 2 = 1
      · rw [if_pos h3]
        exact ⟨rfl, rfl, rfl, rfl, fun hK => absurd hgt (by omega)⟩
      · rw [if_neg h3]
        exact ⟨rfl, rfl, rfl, rfl, fun hK => absurd hgt (by omega)⟩
    · rw [if_neg h2]
      exact ⟨rfl, rfl, rfl, rfl, fun _ => ⟨rfl, rfl⟩⟩

theorem updCurrent_if_proj (b : Bool) (z : Match) :
    (if b = true then updCurrent z else z).round_number = z.round_number ∧
    (if b = true then updCurrent z else z).match_number = z.match_number ∧
    (if b = true then updCurrent z else z).id = z.id ∧
    (if b = true then updCurrent z else z).next_match_id = z.next_match_id ∧
    (if b = true then updCurrent z else z).team1_id = z.team1_id ∧
    (if b = true then updCurrent z else z).team2_id = z.team2_id ∧
    (if b = true then updCurrent z else z).is_completed = z.is_completed ∧
    (if b = true then updCurrent z else z).winner_id = z.winner_id := by
  cases b
  · rw [if_neg (by simp)]
    exact ⟨rfl, rfl, rfl, rfl, rfl, rfl, rfl, rfl⟩
  · rw [if_pos rfl]
    exact ⟨rfl, rfl, rfl, rfl, rfl, rfl, rfl, rfl⟩

/-- C3 (amended): in single-elimination generation from at least 3 competitors
with positive ids, a round-1 match with exactly one populated slot (the unique
bye match, number `(n+1)/2`, which exists exactly when `n` is odd and always
holds its occupant in slot 1) is completed immediately with that occupant as
`winner_id`, and the occupant is written into the slot of its linked next
match selected by the PARITY of the bye's `match_number` — slot 1 when odd,
slot 2 when even — not into the successor's first open slot as claimed (the
successor's slot 1 is empty either way; see the counterexample for an even
bye number landing in slot 2). -/
theorem C3_se_bye_parity (tid : Nat) (teams : List Nat)
    (h3 : 3 ≤ teams.length) (hpos : ∀ t ∈ teams, 0 < t) :
    ∀ m ∈ create_single_elimination_bracket tid teams,
      m.round_number = 1 →
      ¬(truthy m.team1_id = truthy m.team2_id) →
      truthy m.team1_id = true ∧
      teams.length % 2 = 1 ∧
      m.match_number = (teams.length + 1) / 2 ∧
      m.is_completed = true ∧
      m.winner_id = m.team1_id ∧
      (∀ nid, m.next_match_id = some nid →
        ∀ m2 ∈ create_single_elimination_bracket tid teams, m2.id = nid →
          (m.match_number % 2 = 1 → m2.team1_id = m.team1_id) ∧
          (m.match_number % 2 = 0 → m2.team2_id = m.team1_id)) := by
  have hR2 : 2 ≤ ceilLog2 teams.length := two_le_ceilLog2 h3
  have hnB : teams.length ≤ 2 ^ ceilLog2 teams.length :=
    le_pow_ceilLog2 teams.length
  have e1 : (2 : Nat) ^ ceilLog2 teams.length =
      4 * 2 ^ (ceilLog2 teams.length - 2) := by
    conv_lhs => rw [(by omega : ceilLog2 teams.length =
      ceilLog2 teams.length - 2 + 2)]
    rw [pow_add]
    ring
  have hnxtK := seRow1_next_gt tid teams h3
  have hAB := seAfterByes_eq tid teams h3 hpos
  have hout : ∀ z, z ∈ create_single_elimination_bracket tid teams →
      ∃ y, y ∈ seAssigned tid teams ∧ ∃ b : Bool,
        z = (if b = true then
          updCurrent (seProgressSeg 1 (2 ^ ceilLog2 teams.length / 2)
            teams.length (2 ^ ceilLog2 teams.length / 2)
            (((sePadded teams).get? (teams.length - 1)).getD none)
            ((seRow1 tid teams ((teams.length + 1) / 2)).next_match_id) y)
        else seProgressSeg 1 (2 ^ ceilLog2 teams.length / 2)
            teams.length (2 ^ ceilLog2 teams.length / 2)
            (((sePadded teams).get? (teams.length - 1)).getD none)
            ((seRow1 tid teams ((teams.length + 1) / 2)).next_match_id) y) := by
    intro z hz
    rw [se_unfold tid teams (by omega)] at hz
    cases hfind : (seAfterByes tid teams).find?
        (fun m => !m.is_completed && truthy m.team1_id && truthy m.team2_id) with
    | none =>
      rw [hfind] at hz
      change z ∈ seAfterByes tid teams at hz
      rw [hAB] at hz
      rcases List.mem_map.mp hz with ⟨y, hy, rfl⟩
      exact ⟨y, hy, false, by rw [if_neg (by simp)]⟩
    | some c =>
      rw [hfind] at hz
      change z ∈ setM (seAfterByes tid teams) c.id updCurrent at hz
      rw [hAB] at hz
      unfold setM at hz
      rw [List.map_map] at hz
      rcases List.mem_map.mp hz with ⟨y, hy, rfl⟩
      exact ⟨y, hy, _, rfl⟩
  intro m hm h1 hx
  obtain ⟨y, hy, b, rfl⟩ := hout m hm
  have hup := updCurrent_if_proj b (seProgressSeg 1
    (2 ^ ceilLog2 teams.length / 2) teams.length
    (2 ^ ceilLog2 teams.length / 2)
    (((sePadded teams).get? (teams.length - 1)).getD none)
    ((seRow1 tid teams ((teams.length + 1) / 2)).next_match_id) y)
  have hsp := seProgressSeg_proj 1 (2 ^ ceilLog2 teams.length / 2)
    teams.length (2 ^ ceilLog2 teams.length / 2)
    (((sePadded teams).get? (teams.length - 1)).getD none)
    ((seRow1 tid teams ((teams.length + 1) / 2)).next_match_id) hnxtK y
  rw [hup.1, hsp.1] at h1
  obtain ⟨k, hk1, hkK, rfl⟩ :=
    seAssigned_round1 tid teams (ceilLog2 teams.length) rfl hR2 y hy h1
  have hmt1 : (if b = true then
      updCurrent (seProgressSeg 1 (2 ^ ceilLog2 teams.length / 2)
        teams.length (2 ^ ceilLog2 teams.length / 2)
        (((sePadded teams).get? (teams.length - 1)).getD none)
        ((seRow1 tid teams ((teams.length + 1) / 2)).next_match_id)
        (seRow1 tid teams k))
    else seProgressSeg 1 (2 ^ ceilLog2 teams.length / 2)
        teams.length (2 ^ ceilLog2 teams.length / 2)
        (((sePadded teams).get? (teams.length - 1)).getD none)
        ((seRow1 tid teams ((teams.length + 1) / 2)).next_match_id)
        (seRow1 tid teams k)).team1_id =
      ((sePadded teams).get? (2 * (k - 1))).getD none := by
    rw [hup.2.2.2.2.1, (hsp.2.2.2.2 (by rw [seRow1_id]; omega)).1]
    rfl
  have hmt2 : (if b = true then
      updCurrent (seProgressSeg 1 (2 ^ ceilLog2 teams.length / 2)
        teams.length (2 ^ ceilLog2 teams.length / 2)
        (((sePadded teams).get? (teams.length - 1)).getD none)
        ((seRow1 tid teams ((teams.length + 1) / 2)).next_match_id)
        (seRow1 tid teams k))
    else seProgressSeg 1 (2 ^ ceilLog2 teams.length / 2)
        teams.length (2 ^ ceilLog2 teams.length / 2)
        (((sePadded teams).get? (teams.length - 1)).getD none)
        ((seRow1 tid teams ((teams.length + 1) / 2)).next_match_id)
        (seRow1 tid teams k)).team2_id =
      ((sePadded teams).get? (2 * (k - 1) + 1)).getD none := by
    rw [hup.2.2.2.2.2.1, (hsp.2.2.2.2 (by rw [seRow1_id]; omega)).2]
    rfl
  rw [hmt1, hmt2] at hx
  by_cases hlt : 2 * (k - 1) + 1 < teams.length
  · exfalso
    apply hx
    rw [sePadded_truthy_lt teams hpos _ (by omega),
        sePadded_truthy_lt teams hpos _ (by omega)]
  by_cases hgt : teams.length ≤ 2 * (k - 1)
  · exfalso
    apply hx
    rw [sePadded_truthy_ge teams _ (by omega),
        sePadded_truthy_ge teams _ (by omega)]
  have heqn : 2 * (k - 1) + 1 = teams.length := by omega
  have hk0 : k = (teams.length + 1) / 2 := by omega
  subst hk0
  have hseg : seProgressSeg 1 (2 ^ ceilLog2 teams.length / 2)
      teams.length (2 ^ ceilLog2 teams.length / 2)
      (((sePadded teams).get? (teams.length - 1)).getD none)
      ((seRow1 tid teams ((teams.length + 1) / 2)).next_match_id)
      (seRow1 tid teams ((teams.length + 1) / 2)) =
      updByeWinner (((sePadded teams).get? (teams.length - 1)).getD none)
        (seRow1 tid teams ((teams.length + 1) / 2)) := by
    unfold seProgressSeg
    rw [if_pos (by rw [seRow1_id]; omega), if_neg (by rw [seRow1_id]; omega),
        if_pos (by rw [seRow1_id]; omega)]
  have hidx : 2 * ((teams.length + 1) / 2 - 1) = teams.length - 1 := by omega
  refine ⟨?_, by omega, ?_, ?_, ?_, ?_⟩
  · rw [hmt1, hidx]
    exact sePadded_truthy_lt teams hpos _ (by omega)
  · rw [hup.2.1, hsp.2.1]
    rfl
  · rw [hup.2.2.2.2.2.2.1, hseg]
    rfl
  · rw [hmt1, hidx, hup.2.2.2.2.2.2.2, hseg]
    rfl
  · intro nid hnid m2 hm2 hid2
    rw [hup.2.2.2.1, hsp.2.2.2.1] at hnid
    have hKnid := hnxtK nid hnid
    obtain ⟨y2, hy2, b2, rfl⟩ := hout m2 hm2
    have hup2 := updCurrent_if_proj b2 (seProgressSeg 1
      (2 ^ ceilLog2 teams.length / 2) teams.length
      (2 ^ ceilLog2 teams.length / 2)
      (((sePadded teams).get? (teams.length - 1)).getD none)
      ((seRow1 tid teams ((teams.length + 1) / 2)).next_match_id) y2)
    have hsp2 := seProgressSeg_proj 1 (2 ^ ceilLog2 teams.length / 2)
      teams.length (2 ^ ceilLog2 teams.length / 2)
      (((sePadded teams).get? (teams.length - 1)).getD none)
      ((seRow1 tid teams ((teams.length + 1) / 2)).next_match_id) hnxtK y2
    rw [hup2.2.2.1, hsp2.2.2.1] at hid2
    by_cases hpar : (teams.length + 1) / 2 % 2 = 1
    · have hseg2 : seProgressSeg 1 (2 ^ ceilLog2 teams.length / 2)
          teams.length (2 ^ ceilLog2 teams.length / 2)
          (((sePadded teams).get? (teams.length - 1)).getD none)
          ((seRow1 tid teams ((teams.length + 1) / 2)).next_match_id) y2 =
          updSlot1 (((sePadded teams).get? (teams.length - 1)).getD none) y2 := by
        unfold seProgressSeg
        rw [if_neg (by omega),
            if_pos (show (seRow1 tid teams ((teams.length + 1) / 2)).next_match_id =
                some y2.id ∧ teams.length % 2 = 1 ∧
                1 ≤ (teams.length + 1) / 2 ∧
                (teams.length + 1) / 2 < 1 + 2 ^ ceilLog2 teams.length / 2 from
              ⟨by rw [hid2]; exact hnid, by omega, by omega, by omega⟩),
            if_pos hpar]
      constructor
      · intro _
        rw [hup2.2.2.2.2.1, hseg2, hmt1, hidx]
        rfl
      · intro hev
        exfalso
        rw [hup.2.1, hsp.2.1] at hev
        dsimp only [seRow1] at hev
        omega
    · have hseg2 : seProgressSeg 1 (2 ^ ceilLog2 teams.length / 2)
          teams.length (2 ^ ceilLog2 teams.length / 2)
          (((sePadded teams).get? (teams.length - 1)).getD none)
          ((seRow1 tid teams ((teams.length + 1) / 2)).next_match_id) y2 =
          updSlot2 (((sePadded teams).get? (teams.length - 1)).getD none) y2 := by
        unfold seProgressSeg
        rw [if_neg (by omega),
            if_pos (show (seRow1 tid teams ((teams.length + 1) / 2)).next_match_id =
                some y2.id ∧ teams.length % 2 = 1 ∧
                1 ≤ (teams.length + 1) / 2 ∧
                (teams.length + 1) / 2 < 1 + 2 ^ ceilLog2 teams.length / 2 from
              ⟨by rw [hid2]; exact hnid, by omega, by omega, by omega⟩),
            if_neg hpar]
      constructor
      · intro hodd
        exfalso
        rw [hup.2.1, hsp.2.1] at hodd
        dsimp only [seRow1] at hodd
        omega
      · intro _
        rw [hup2.2.2.2.2.2.1, hseg2, hmt1, hidx]
        rfl

/-- C3 witness: the amended bye theorem applied to the 3-competitor bracket,
whose single bye (match 2, even) sends its occupant to the successor's
slot 2. -/
theorem C3_se_bye_parity_witness :
    (3 ≤ ([1, 2, 3] : List Nat).length ∧
      (∀ t ∈ ([1, 2, 3] : List Nat), 0 < t)) ∧
    (∀ m ∈ create_single_elimination_bracket 5 [1, 2, 3],
      m.round_number = 1 →
      ¬(truthy m.team1_id = truthy m.team2_id) →
      truthy m.team1_id = true ∧
      ([1, 2, 3] : List Nat).length % 2 = 1 ∧
      m.match_number = (([1, 2, 3] : List Nat).length + 1) / 2 ∧
      m.is_completed = true ∧
      m.winner_id = m.team1_id ∧
      (∀ nid, m.next_match_id = some nid →
        ∀ m2 ∈ create_single_elimination_bracket 5 [1, 2, 3], m2.id = nid →
          (m.match_number % 2 = 1 → m2.team1_id = m.team1_id) ∧
          (m.match_number % 2 = 0 → m2.team2_id = m.team1_id))) :=
  ⟨⟨by decide, by decide⟩, C3_se_bye_parity 5 [1, 2, 3] (by decide) (by decide)⟩

end Scoreboard
